import Mathlib

/-!
Formal model of the `rlm_mcts` repository's core backbone, with theorems
checking the natural-language specification against the code.

Conventions of the embedding:
* Python floats are modelled as rationals (`ℚ`); `round(x, 4)` becomes
  `pyRound4` (round half away from zero at the fourth decimal — Python's
  float rounding can differ only at exact representation boundaries, which
  no statement here touches).
* `math.log` and `math.sqrt` are modelled as opaque function parameters
  (`logF`, `sqrtF`): every theorem that mentions them holds for all
  choices of these functions, so nothing depends on their numeric values.
* Python dicts are association lists whose `insert` overwrites in place
  (insertion order preserved, as in CPython).
* External effects (the OpenAI provider, `exec` of arbitrary code in the
  rubric variant, policy/value LLM calls) are oracle parameters.
-/

namespace RlmMcts

/-- Python `max(0.0, min(1.0, x))`, the clamp used throughout the code. -/
def clamp01 (x : ℚ) : ℚ := max 0 (min 1 x)

/-- Python `round(x, 4)` as used by `reward_signals.py` (see module header
for the float-versus-rational caveat). -/
def pyRound4 (x : ℚ) : ℚ := (round (x * 10000) : ℚ) / 10000

/-- Python `s[:n]` — the first `n` code points (Python strings slice by
code point, as `List Char` does). -/
def pySlice (s : String) (n : Nat) : String := String.mk (s.toList.take n)

/-- Python `s.startswith(pre)`, by code points. -/
def pyStartsWith (s pre : String) : Bool := pre.toList.isPrefixOf s.toList

/-! ## `rubric-discovery/backend/reward_signals.py` -/

namespace RewardSignals

/-- One entry of a `train_results` / `eval_results` list: the dict
`{"predicted": float, "actual": float}` built by `_run_rubric`. -/
structure TestResult where
  predicted : ℚ
  actual : ℚ
deriving DecidableEq

/-- `_mae(results)` (reward_signals.py lines 181-185). -/
def _mae (results : List TestResult) : ℚ :=
  if results = [] then 1
  else (results.map (fun r => |r.predicted - r.actual|)).sum / results.length

/-- `_std(values)` (lines 188-192); `math.sqrt` is the parameter `sqrtF`. -/
def _std (sqrtF : ℚ → ℚ) (values : List ℚ) : ℚ :=
  if values.length < 2 then 0
  else
    let mean := values.sum / values.length
    sqrtF ((values.map (fun v => (v - mean) ^ 2)).sum / (values.length - 1))

/-- Ranks of a sorted run `[i, j)` of equal values get the average rank
`(i + j + 1) / 2`; `_rank`'s inner while-loops (lines 199-207). -/
def rankRuns : Nat → List (Nat × ℚ) → List (Nat × ℚ)
  | _, [] => []
  | i, (idx, v) :: rest =>
      let run := (idx, v) :: rest.takeWhile (fun p => p.2 = v)
      let rest' := rest.dropWhile (fun p => p.2 = v)
      let j := i + run.length
      run.map (fun p => (p.1, ((i : ℚ) + (j : ℚ) + 1) / 2)) ++ rankRuns j rest'
termination_by _ l => l.length
decreasing_by
  simp only [List.length_cons]
  exact Nat.lt_succ_of_le ((List.dropWhile_sublist _).length_le)

/-- `_rank(values)` (lines 195-208): 1-based ranks, ties averaged.
`sorted` is a stable sort by value, as in Python. -/
def _rank (values : List ℚ) : List ℚ :=
  let indexed := values.enum
  let sortedIdx := indexed.mergeSort (fun x y => x.2 ≤ y.2)
  let assignments := rankRuns 0 sortedIdx
  (List.range values.length).map
    (fun k => ((assignments.find? (fun p => p.1 = k)).map Prod.snd).getD 0)

/-- `generalization_reward(train_results, eval_results)` (lines 8-31). -/
def generalization_reward (train_results eval_results : List TestResult) : ℚ :=
  if train_results = [] ∨ eval_results = [] then 0
  else
    let train_mae := _mae train_results
    let eval_mae := _mae eval_results
    if train_mae = 0 ∧ eval_mae = 0 then 1
    else
      let gap := max 0 (eval_mae - train_mae)
      let eval_accuracy := max 0 (1 - eval_mae)
      let gen_score := eval_accuracy * (1 - min gap 1)
      pyRound4 (clamp01 gen_score)

/-- `calibration_reward(results)` (lines 34-56). -/
def calibration_reward (sqrtF : ℚ → ℚ) (results : List TestResult) : ℚ :=
  if results = [] then 0
  else
    let actuals := results.map TestResult.actual
    let preds := results.map TestResult.predicted
    let actual_mean := actuals.sum / actuals.length
    let pred_mean := preds.sum / preds.length
    let mean_diff := |actual_mean - pred_mean|
    let actual_std := _std sqrtF actuals
    let pred_std := _std sqrtF preds
    let std_ratio := min pred_std actual_std / max pred_std (max actual_std (1 / 1000000))
    let calibration := (1 - min mean_diff 1) * (6 / 10) + std_ratio * (4 / 10)
    pyRound4 (clamp01 calibration)

/-- `discrimination_reward(results)` (lines 59-80): Spearman rank
correlation mapped to `[0, 1]`. -/
def discrimination_reward (results : List TestResult) : ℚ :=
  if results.length < 3 then 0
  else
    let n : ℚ := results.length
    let actuals := results.map TestResult.actual
    let preds := results.map TestResult.predicted
    let ranked_a := _rank actuals
    let ranked_p := _rank preds
    let d_sq := ((ranked_a.zip ranked_p).map (fun p => (p.1 - p.2) ^ 2)).sum
    let rho := 1 - (6 * d_sq) / (n * (n * n - 1))
    pyRound4 (clamp01 ((rho + 1) / 2))

/-- Python `s.count(pat)` for a nonempty pattern (non-overlapping). -/
def pyCount (s pat : String) : Nat := (s.splitOn pat).length - 1

/-- Python `pat in s` (substring test) for a nonempty pattern. -/
def pyContains (s pat : String) : Bool := decide (1 ≤ pyCount s pat)

/-- `validity_reward(rubric_code, execution_success, stdout, stderr)`
(lines 83-114). `stdout`/`stderr` are unused by the source body too. -/
def validity_reward (rubric_code : String) (execution_success : Bool) : ℚ :=
  if execution_success = false then 0
  else
    let score : ℚ := 6 / 10
    let score := if pyContains rubric_code "return 0" ∧ pyCount rubric_code "return" = 1
      then score - 3 / 10 else score
    let score := if pyContains rubric_code "return 1" ∧ pyCount rubric_code "return" = 1
      then score - 3 / 10 else score
    let logic_keywords := ["if ", "for ", "len(", "re.", "split", "lower", "count"]
    let logic_count : ℚ := (logic_keywords.filter (fun kw => pyContains rubric_code kw)).length
    let score := score + min (logic_count * (5 / 100)) (3 / 10)
    let score := if pyContains rubric_code "response" ∨ pyContains rubric_code "text"
      then score + 1 / 10 else score
    pyRound4 (clamp01 score)

/-- `iteration_reward(current_mae, parent_mae)` (lines 117-138). -/
def iteration_reward (current_mae : ℚ) (parent_mae : Option ℚ) : ℚ :=
  match parent_mae with
  | none => pyRound4 (clamp01 (1 - current_mae))
  | some pmae =>
    if pmae = 0 then (if current_mae = 0 then 1 else 0)
    else
      let improvement := (pmae - current_mae) / pmae
      if 0 < improvement then pyRound4 (min 1 (3 / 10 + improvement * (7 / 10)))
      else pyRound4 (max 0 (3 / 10 + improvement))

/-- The five signals plus composite returned by `compute_rewards`
(lines 141-174). -/
structure Rewards where
  generalization : ℚ
  calibration : ℚ
  discrimination : ℚ
  validity : ℚ
  iteration : ℚ
  composite : ℚ
deriving DecidableEq

/-- `compute_rewards(...)` (lines 141-174). Weights: 1.0, 0.4, 0.3, 0.2,
0.2; composite is the weighted mean. `calibration_reward` and
`discrimination_reward` are applied to `train_results`, as in the source. -/
def compute_rewards (sqrtF : ℚ → ℚ) (rubric_code : String)
    (train_results eval_results : List TestResult)
    (execution_success : Bool) (parent_mae : Option ℚ) : Rewards :=
  let train_mae := if train_results = [] then 1 else _mae train_results
  let g := generalization_reward train_results eval_results
  let c := calibration_reward sqrtF train_results
  let d := discrimination_reward train_results
  let v := validity_reward rubric_code execution_success
  let i := iteration_reward train_mae parent_mae
  let total_w : ℚ := 1 + 4 / 10 + 3 / 10 + 2 / 10 + 2 / 10
  let composite := (g * 1 + c * (4 / 10) + d * (3 / 10) + v * (2 / 10) + i * (2 / 10)) / total_w
  { generalization := g, calibration := c, discrimination := d,
    validity := v, iteration := i, composite := pyRound4 composite }

end RewardSignals

/-! ## `backend/repl_env.py` — the transcript-variant sandbox

`REPLEnv.execute` is embedded over a small statement language covering the
constructs the claims exercise (assignment, `print`, `import`, calls to the
injected `llm_query`). The namespace mechanics — import lines split off and
run first against `self._globals` (with the full, unrestricted
`__builtins__` of line 84), all other statements run in the merged dict
`{**globals, **locals}`, new bindings persisted back into `self._locals`
under the filter of lines 127-129, and the bounded variables snapshot of
lines 140-149 — follow the source line by line. Wall-clock timing and the
temp-file mirror of the context are not modelled (no claim touches them);
the set of importable modules and the chat provider are oracles. -/

namespace ReplEnv

/-- A Python value living in the REPL namespace. `badRepr` stands for an
object whose `__repr__` raises (reachable in Python; used by the snapshot
marker path of line 149). -/
inductive Value where
  | intV (n : ℤ)
  | strV (s : String)
  | moduleV (name : String)
  | builtinV (name : String)
  | badRepr
deriving DecidableEq

/-- Python `str(v)` for the modelled values (`badRepr` only matters to
`repr`, so `str` gives it an opaque rendering). -/
def pyStr : Value → String
  | .intV n => toString n
  | .strV s => s
  | .moduleV m => "<module " ++ m ++ ">"
  | .builtinV f => "<built-in " ++ f ++ ">"
  | .badRepr => "<object>"

/-- Python `repr(v)`; `none` models a raising `__repr__`. -/
def pyRepr : Value → Option String
  | .intV n => some (toString n)
  | .strV s => some ("\x27" ++ s ++ "\x27")
  | .moduleV m => some ("<module " ++ m ++ ">")
  | .builtinV f => some ("<built-in " ++ f ++ ">")
  | .badRepr => none

/-- A Python dict (insertion ordered, keys unique by construction). -/
abbrev Dict := List (String × Value)

def dictLookup (d : Dict) (k : String) : Option Value :=
  (d.find? (fun p => p.1 = k)).map Prod.snd

/-- `d[k] = v`: overwrite in place if present, else append (CPython
insertion-order semantics). -/
def dictInsert (d : Dict) (k : String) (v : Value) : Dict :=
  if (d.find? (fun p => p.1 = k)).isSome then
    d.map (fun p => if p.1 = k then (k, v) else p)
  else d ++ [(k, v)]

/-- `{**a, **b}` (line 124). -/
def dictMerge (a b : Dict) : Dict :=
  b.foldl (fun acc p => dictInsert acc p.1 p.2) a

/-- Expressions of the embedded fragment. -/
inductive Expr where
  | lit (n : ℤ)
  | strLit (s : String)
  | var (name : String)
  | add (a b : Expr)

/-- Statements of the embedded fragment. `assignLlm x p` is
`x = llm_query(p)`. -/
inductive Stmt where
  | importMod (module : String)
  | assign (name : String) (e : Expr)
  | print (e : Expr)
  | assignLlm (name : String) (prompt : Expr)

def evalExpr (ns : Dict) : Expr → Except String Value
  | .lit n => .ok (.intV n)
  | .strLit s => .ok (.strV s)
  | .var x =>
      match dictLookup ns x with
      | some v => .ok v
      | none => .error ("NameError: name " ++ "\x27" ++ x ++ "\x27" ++ " is not defined")
  | .add a b => do
      let va ← evalExpr ns a
      let vb ← evalExpr ns b
      match va, vb with
      | .intV m, .intV n => .ok (.intV (m + n))
      | .strV s, .strV t => .ok (.strV (s ++ t))
      | _, _ => .error "TypeError: unsupported operand types for +"

/-- One recorded invocation of the injected `llm_query` closure. -/
structure LlmCall where
  prompt : String
  reply : String
  answered : Bool
deriving DecidableEq

/-- The sentinel returned once the per-execution budget is spent
(repl_env.py line 61). -/
def llmSentinel : String :=
  "[llm_query limit reached — use Python string operations instead]"

/-- Prompt truncation of lines 62-63. -/
def truncPrompt (p : String) : String :=
  if p.length > 100000 then pySlice p 100000 ++ "\n...[truncated]" else p

/-- `llm_query(prompt)` (lines 57-70) as a transition on the call counter
`self._llm_call_count`; `answered` records whether the provider
(`sync_client.chat.completions.create`) was reached. -/
def llm_query (provider : String → String) (count : Nat) (prompt : String) :
    Nat × LlmCall :=
  if count + 1 > 3 then (count + 1, ⟨prompt, llmSentinel, false⟩)
  else (count + 1, ⟨prompt, provider (truncPrompt prompt), true⟩)

/-- State threaded through the `exec` of the non-import statements. -/
structure ExecSt where
  ns : Dict
  count : Nat
  stdout : String
  trace : List LlmCall

def stepStmt (provider : String → String) (s : ExecSt) :
    Stmt → Except (ExecSt × String) ExecSt
  | .importMod m => .ok { s with ns := dictInsert s.ns m (.moduleV m) }
  | .assign x e =>
      match evalExpr s.ns e with
      | .ok v => .ok { s with ns := dictInsert s.ns x v }
      | .error msg => .error (s, msg)
  | .print e =>
      match evalExpr s.ns e with
      | .ok v => .ok { s with stdout := s.stdout ++ pyStr v ++ "\n" }
      | .error msg => .error (s, msg)
  | .assignLlm x pe =>
      match evalExpr s.ns pe with
      | .ok (.strV p) =>
          let r := llm_query provider s.count p
          .ok { s with ns := dictInsert s.ns x (.strV r.2.reply),
                       count := r.1, trace := s.trace ++ [r.2] }
      | .ok _ => .error (s, "TypeError: llm_query expects a string prompt")
      | .error msg => .error (s, msg)

/-- Sequential execution; an exception stops the remaining statements and
keeps the output produced so far (the buffers of lines 100-105 survive the
`except`). -/
def runStmts (provider : String → String) :
    ExecSt → List Stmt → ExecSt × Option String
  | s, [] => (s, none)
  | s, stmt :: rest =>
      match stepStmt provider s stmt with
      | .ok s' => runStmts provider s' rest
      | .error (s', msg) => (s', some msg)

/-- The mutable attributes of a `REPLEnv` instance. -/
structure REPLState where
  globals : Dict
  locals : Dict
  llm_call_count : Nat
deriving DecidableEq

/-- `REPLEnv.__init__` (lines 40-93): `llm_query`, `FINAL_VAR` and the full
`__builtins__` injected into `self._globals`; the transcript bound to
`context` (and its temp-file path) in `self._locals`. -/
def initState (context context_path : String) : REPLState :=
  { globals := [("llm_query", .builtinV "llm_query"),
                ("FINAL_VAR", .builtinV "FINAL_VAR"),
                ("__builtins__", .builtinV "__builtins__")],
    locals := [("context", .strV context), ("context_path", .strV context_path)],
    llm_call_count := 0 }

def isImport : Stmt → Bool
  | .importMod _ => true
  | _ => false

/-- `exec("\n".join(import_lines), self._globals, self._globals)`
(lines 120-121). The transcript variant installs no import restriction —
`self._globals["__builtins__"] = __builtins__` (line 84) exposes the real
`__import__` — so an import succeeds exactly when the interpreter has the
module (`modules` oracle) and binds it in `self._globals`. -/
def runImports (modules : String → Bool) : Dict → List Stmt → Dict × Option String
  | g, [] => (g, none)
  | g, .importMod m :: rest =>
      if modules m then runImports modules (dictInsert g m (.moduleV m)) rest
      else (g, some ("ModuleNotFoundError: No module named " ++ "\x27" ++ m ++ "\x27"))
  | g, _ :: rest => runImports modules g rest

/-- Lines 146-147: `repr` truncated to 200 chars; line 149: the
`<unrepresentable>` marker when `repr` raises. -/
def truncRepr (v : Value) : String :=
  match pyRepr v with
  | some r => if r.length > 200 then pySlice r 200 else r
  | none => "<unrepresentable>"

/-- The "safe snapshot" loop of lines 140-149: skip keys starting with
`_` and the key `context`. -/
def localsSnapshot (l : Dict) : List (String × String) :=
  (l.filter (fun p => !pyStartsWith p.1 "_" && p.1 != "context")).map
    (fun p => (p.1, truncRepr p.2))

/-- Result of one `execute` call (`REPLResult`, lines 25-31, without the
wall-clock field); `llmTrace` additionally records the `llm_query`
invocations the call made, in order. -/
structure REPLResult where
  stdout : String
  stderr : String
  locals_snapshot : List (String × String)
  success : Bool
  llmTrace : List LlmCall
deriving DecidableEq

def tracebackOf (msg : String) : String :=
  "Traceback (most recent call last):\n" ++ msg ++ "\n"

/-- `REPLEnv.execute(code)` (lines 95-157): reset the `llm_query` budget,
split off import lines and run them first against `self._globals`, run the
rest in `{**globals, **locals}`, persist new non-underscore bindings that
do not collide with a global (lines 127-129, skipped on exception), and
take the bounded snapshot. -/
def execute (modules : String → Bool) (provider : String → String)
    (st : REPLState) (code : List Stmt) : REPLState × REPLResult :=
  let st := { st with llm_call_count := 0 }
  let import_lines := code.filter isImport
  let other_lines := code.filter (fun s => !isImport s)
  match runImports modules st.globals import_lines with
  | (g, some msg) =>
      let st := { st with globals := g }
      (st, { stdout := "", stderr := tracebackOf msg,
             locals_snapshot := localsSnapshot st.locals,
             success := false, llmTrace := [] })
  | (g, none) =>
      let st := { st with globals := g }
      if other_lines.isEmpty then
        (st, { stdout := "", stderr := "",
               locals_snapshot := localsSnapshot st.locals,
               success := true, llmTrace := [] })
      else
        let combined := dictMerge st.globals st.locals
        let r := runStmts provider { ns := combined, count := 0, stdout := "", trace := [] } other_lines
        let s := r.1
        let st := { st with llm_call_count := s.count }
        match r.2 with
        | some msg =>
            (st, { stdout := s.stdout, stderr := tracebackOf msg,
                   locals_snapshot := localsSnapshot st.locals,
                   success := false, llmTrace := s.trace })
        | none =>
            let locals' := s.ns.foldl (fun acc p =>
                if (dictLookup st.globals p.1).isSome || pyStartsWith p.1 "_" then acc
                else dictInsert acc p.1 p.2) st.locals
            let st := { st with locals := locals' }
            (st, { stdout := s.stdout, stderr := "",
                   locals_snapshot := localsSnapshot st.locals,
                   success := true, llmTrace := s.trace })

/-- What the j-th (0-based) `llm_query` call in one `execute` must look
like: the first three calls reach the provider, later ones get the
sentinel. -/
def LlmCallOk (provider : String → String) (j : Nat) (call : LlmCall) : Prop :=
  (j < 3 → call.answered = true ∧ call.reply = provider (truncPrompt call.prompt)) ∧
  (3 ≤ j → call.answered = false ∧ call.reply = llmSentinel)

/-- Invariant carried through the statement loop: the call counter equals
the number of calls so far, and every recorded call is as budgeted. -/
def TraceOk (provider : String → String) (s : ExecSt) : Prop :=
  s.count = s.trace.length ∧
  ∀ (j : Nat) (h : j < s.trace.length), LlmCallOk provider j (s.trace.get ⟨j, h⟩)

end ReplEnv

/-! ## `rubric-discovery/backend/repl_env.py` — the rubric-variant sandbox

Only the import mechanism is claimed: `_safe_builtins()` (lines 186-216)
replaces `__import__` with `_restricted_import`, which raises unless the
module is in `_ALLOWED_MODULES`. -/

namespace RubricRepl

/-- `_ALLOWED_MODULES` (rubric repl_env.py line 207). -/
def ALLOWED_MODULES : List String :=
  ["re", "json", "math", "string", "collections", "functools", "itertools"]

/-- `_restricted_import(name, ...)` (lines 210-213): `ok` returns the real
module, `error` carries the `ImportError` message (whose suffix in the
source also renders the allowlist set). -/
def _restricted_import (name : String) : Except String String :=
  if name ∈ ALLOWED_MODULES then .ok name
  else .error ("Import of " ++ "\x27" ++ name ++ "\x27" ++ " is not allowed.")

end RubricRepl

/-! ## Parent-walking backpropagation, shared by both engines

`MCTSReasoningTree._backpropagate` (backend/mcts_engine.py lines 254-260)
and `MCTSRubricTree._backpropagate` (rubric mcts_engine.py lines 235-242)
are the same `while current_id is not None` walk over `{id → node}`, so
the walk is defined once, generic in the node type. The walk is given
fuel: the engines' trees are finite and acyclic, so the theorems always
have enough fuel for the actual parent path (in Python a cyclic path would
simply not terminate). A missing id would raise `KeyError` in Python; the
model returns the map unchanged there, a branch the well-formedness
invariant proves unreachable. -/

section Backprop
variable {v : Type} (parent : v → Option Nat) (bump : v → v)

def backpropAux : (Nat → Option v) → Option Nat → Nat → (Nat → Option v)
  | nodes, none, _ => nodes
  | nodes, some _, 0 => nodes
  | nodes, some id, fuel + 1 =>
      match nodes id with
      | none => nodes
      | some node =>
          backpropAux (Function.update nodes id (some (bump node))) (parent node) fuel

def parentPath (nodes : Nat → Option v) : Nat → Nat → Option (List Nat)
  | _, 0 => none
  | id, fuel + 1 =>
      match nodes id with
      | none => none
      | some node =>
          match parent node with
          | none => some [id]
          | some q => (parentPath nodes q fuel).map (fun p => id :: p)

end Backprop

/-- Well-formedness shared by both engines' trees: ids at or above the
counter are unallocated, the root lives at id 0 with no parent, children
of present nodes are present, and every present node's parent chain is a
duplicate-free path of allocated ids ending at the root. The engines
establish it at init and preserve it through expansion and
backpropagation. -/
def WFcore {v : Type} (parent : v → Option Nat) (childrenOf : v → List Nat)
    (nodes : Nat → Option v) (bound : Nat) : Prop :=
  (∀ id, bound ≤ id → nodes id = none) ∧
  (∃ rn, nodes 0 = some rn ∧ parent rn = none) ∧
  (∀ id n, nodes id = some n → ∀ c ∈ childrenOf n, (nodes c).isSome) ∧
  (∀ id, (nodes id).isSome → ∃ p f, parentPath parent nodes id f = some p ∧
      p.Nodup ∧ (∀ x ∈ p, x < bound) ∧ p.getLast? = some 0)

/-! ## `backend/mcts_engine.py` — the transcript-variant engine

The tree is `{id → node}`; `uuid4` ids are modelled by a counter (`nextId`),
with the root always getting id `0`. The external collaborators — the
policy LLM, the judge LLM, and the REPL (whose private state has the
abstract type `σ`) — are oracle parameters, typed after their call sites.
The per-branch message bookkeeping (`branch_messages`, lines 109 and
230-244) only feeds the policy prompt and is absorbed by the policy
oracle's access to the whole search state. `execution_ms` fields carry
wall-clock time and are not modelled. -/

namespace MctsEngine

/-- `ReasoningNode` (mcts_engine.py lines 25-41). -/
structure ReasoningNode where
  id : Nat
  content : String
  node_type : String
  parent_id : Option Nat
  children : List Nat
  visits : Nat
  total_value : ℚ
  depth : Nat
  code : String
  repl_stdout : String
  repl_stderr : String
  repl_vars : List (String × String)
deriving DecidableEq

/-- `avg_value` (lines 43-45). -/
def avg_value (n : ReasoningNode) : ℚ :=
  if 0 < n.visits then n.total_value / n.visits else 0

/-- `ucb_score(parent_visits, c)` (lines 47-52): `+inf` (here `⊤`) for an
unvisited node, else exploitation plus exploration. -/
def ucb_score (logF sqrtF : ℚ → ℚ) (n : ReasoningNode) (parent_visits : Nat)
    (c : ℚ) : WithTop ℚ :=
  if n.visits = 0 then ⊤
  else ((n.total_value / n.visits + c * sqrtF (logF parent_visits / n.visits) : ℚ) : WithTop ℚ)

/-- The default exploration constant (line 47 and line 97). -/
def cDefault : ℚ := 1.414

/-- The node dict produced by `to_dict` (lines 54-70). -/
structure SerializedNode where
  id : Nat
  content : String
  node_type : String
  parent_id : Option Nat
  children : List Nat
  visits : Nat
  total_value : ℚ
  avg_value : ℚ
  depth : Nat
  code : String
  repl_stdout : String
  repl_stderr : String
  repl_vars : List (String × String)
deriving DecidableEq

/-- `to_dict` (lines 54-70), with the source's truncations: content 300,
code 500, stdout 300, stderr 200 (the latter three only when truthy). -/
def to_dict (n : ReasoningNode) : SerializedNode :=
  { id := n.id,
    content := pySlice n.content 300,
    node_type := n.node_type,
    parent_id := n.parent_id,
    children := n.children,
    visits := n.visits,
    total_value := pyRound4 n.total_value,
    avg_value := pyRound4 (avg_value n),
    depth := n.depth,
    code := if n.code ≠ "" then pySlice n.code 500 else "",
    repl_stdout := if n.repl_stdout ≠ "" then pySlice n.repl_stdout 300 else "",
    repl_stderr := if n.repl_stderr ≠ "" then pySlice n.repl_stderr 200 else "",
    repl_vars := n.repl_vars }

/-- Python `max(iterable, key=...)`: first element of maximal key (a later
element replaces the current best only on a strictly greater key). -/
def pymaxAux {α : Type} (key : α → WithTop ℚ) : α → List α → α
  | best, [] => best
  | best, y :: ys => pymaxAux key (if key best < key y then y else best) ys

/-- Python `max(iterable, key=...)`; `none` only on the empty list (where
Python raises `ValueError`). -/
def pymax {α : Type} (key : α → WithTop ℚ) : List α → Option α
  | [] => none
  | x :: xs => some (pymaxAux key x xs)

/-- `parent_visits = max(node.visits, 1)` (line 175), the floor that keeps
`math.log` away from zero. -/
def parent_visits_floor (n : ReasoningNode) : Nat := max n.visits 1

/-- The selection key of line 178: `self.nodes[cid].ucb_score(...)`. A
missing id would raise `KeyError` in Python; the value chosen for that
unreachable branch is irrelevant under well-formedness. -/
def childKey (logF sqrtF : ℚ → ℚ) (c : ℚ) (nodes : Nat → Option ReasoningNode)
    (pv : Nat) (cid : Nat) : WithTop ℚ :=
  match nodes cid with
  | some child => ucb_score logF sqrtF child pv c
  | none => ⊤

/-- `_select` (lines 169-180): descend by UCB until a childless node. The
fuel bounds the `while True` loop; the search always supplies enough. -/
def selectLoop (logF sqrtF : ℚ → ℚ) (c : ℚ) (nodes : Nat → Option ReasoningNode) :
    Nat → Nat → Nat
  | node_id, 0 => node_id
  | node_id, fuel + 1 =>
      match nodes node_id with
      | none => node_id
      | some node =>
          if node.children.isEmpty then node_id
          else
            match pymax (childKey logF sqrtF c nodes (parent_visits_floor node)) node.children with
            | none => node_id
            | some best => selectLoop logF sqrtF c nodes best fuel

/-- What the policy returns for one child candidate before the engine
overwrites id/parent/depth (lines 193-196). -/
structure Seed where
  content : String
  node_type : String
  code : String

/-- What `repl.execute_async` hands back (a `REPLResult`; the engine reads
stdout, stderr, the variables snapshot and the success flag). -/
structure ExecOutcome where
  stdout : String
  stderr : String
  vars : List (String × String)
  success : Bool

/-- Engine state: the node map, the fresh-id counter, and the REPL's
private state. -/
structure SearchState (σ : Type) where
  nodes : Nat → Option ReasoningNode
  nextId : Nat
  repl : σ

/-- Python `s.strip()`. -/
def pyStripWS (s : String) : String :=
  String.mk (((s.toList.dropWhile Char.isWhitespace).reverse.dropWhile Char.isWhitespace).reverse)

/-- Python `s.strip(c)` for a single strip character. -/
def pyStripChar (c : Char) (s : String) : String :=
  String.mk (((s.toList.dropWhile (· = c)).reverse.dropWhile (· = c)).reverse)

/-- The literal part of the `FINAL_VAR\(([^)]+)\)` pattern (line 282). -/
def finalVarPattern : List Char := "FINAL_VAR(".toList

/-- Try the regex at the current position: the literal `FINAL_VAR(`, then
one or more non-`)` characters, then `)`. -/
def matchFinalVarAt (l : List Char) : Option String :=
  if l.take 10 = finalVarPattern then
    let r := l.drop 10
    let cap := r.takeWhile (fun ch => ch ≠ ')')
    if cap.isEmpty then none
    else if cap.length < r.length then some (String.mk cap) else none
  else none

/-- `re.search` semantics: try each start position left to right. -/
def findFinalVar : List Char → Option String
  | [] => none
  | ch :: rest =>
      match matchFinalVarAt (ch :: rest) with
      | some cap => some cap
      | none => findFinalVar rest

/-- `_check_final_var` (lines 279-288): scan `code + "\n" + stdout` for the
marker, strip quotes from the captured name, and resolve it through
`repl.get_variable`; the oracle `getVar` returns `str(value)` for a
present, non-`None` variable and `none` otherwise, exactly the distinction
lines 285-287 make. -/
def _check_final_var {σ : Type} (getVar : σ → String → Option String)
    (repl : σ) (node : ReasoningNode) : Option String :=
  match findFinalVar (node.code ++ "\n" ++ node.repl_stdout).toList with
  | none => none
  | some raw =>
      let var_name := pyStripChar '\x27' (pyStripChar '"' (pyStripWS raw))
      getVar repl var_name

/-- Python `str(list(keys))`, used by the no-output content of line 212. -/
def pyListOfKeys (ks : List String) : String :=
  "[" ++ String.intercalate ", " (ks.map (fun k => "\x27" ++ k ++ "\x27")) ++ "]"

/-- The displayed content derived from an execution result
(lines 207-212). -/
def deriveContent (res : ExecOutcome) : String :=
  if res.success && (pyStripWS res.stdout ≠ "") then
    "Code executed → " ++ pyStripWS (pySlice res.stdout 200)
  else if !res.success then
    "Code error → " ++ pyStripWS (pySlice res.stderr 200)
  else
    "Code executed (no output), vars: " ++ pyListOfKeys (res.vars.map Prod.fst)

/-- The freshly assigned child before any execution (lines 193-196): the
seed's fields with id, parent and depth filled in. -/
def seedBase {σ : Type} (st : SearchState σ) (parentId : Nat)
    (parentNode : ReasoningNode) (seed : Seed) : ReasoningNode :=
  { id := st.nextId, content := seed.content, node_type := seed.node_type,
    parent_id := some parentId, children := [], visits := 0,
    total_value := 0, depth := parentNode.depth + 1, code := seed.code,
    repl_stdout := "", repl_stderr := "", repl_vars := [] }

/-- A `code` child after execution (lines 199-212): captured output bounded
(stdout 2000, stderr 1000), variables snapshot, derived content. -/
def seedChild0 (base : ReasoningNode) (out : ExecOutcome) : ReasoningNode :=
  { base with
    repl_stdout := pySlice out.stdout 2000,
    repl_stderr := pySlice out.stderr 1000,
    repl_vars := out.vars,
    content := deriveContent out }

/-- The `answer` grandchild appended on a `FINAL_VAR` match
(lines 218-227). -/
def ansNodeOf (cid depth : Nat) (ans : String) : ReasoningNode :=
  { id := cid + 1, content := ans, node_type := "answer",
    parent_id := some cid, children := [], visits := 0,
    total_value := 0, depth := depth + 1, code := "",
    repl_stdout := "", repl_stderr := "", repl_vars := [] }

/-- Registration of a child under its parent (lines 245-246): append the
id to the parent's children and bind the child in the node map. -/
def registerChild {σ : Type} (st2 : SearchState σ) (parentId : Nat)
    (parentNode : ReasoningNode) (cid : Nat) (child : ReasoningNode) :
    SearchState σ :=
  let nodes' := Function.update
    (Function.update st2.nodes parentId
      (some { parentNode with children := parentNode.children ++ [cid] }))
    cid (some child)
  { st2 with nodes := nodes' }

/-- The body of `_expand`'s per-child loop (lines 193-246) for one seed:
assign a fresh id, parent and depth; execute `code`-typed seeds in the
REPL and bound their captured output; derive the content; on a
`FINAL_VAR` match append an `answer` grandchild; then register the child
under its parent. Returns the child's id. -/
def expandSeed {σ : Type} (replExec : σ → String → σ × ExecOutcome)
    (getVar : σ → String → Option String)
    (st : SearchState σ) (parentId : Nat) (seed : Seed) : SearchState σ × Nat :=
  match st.nodes parentId with
  | none => (st, parentId)
  | some parentNode =>
      let cid := st.nextId
      let base := seedBase st parentId parentNode seed
      let st2child : SearchState σ × ReasoningNode :=
        if seed.node_type = "code" ∧ seed.code ≠ "" then
          let r := replExec st.repl seed.code
          let child0 := seedChild0 base r.2
          (match _check_final_var getVar r.1 child0 with
          | some ans =>
              ({ st with repl := r.1, nextId := cid + 2,
                         nodes := Function.update st.nodes (cid + 1)
                           (some (ansNodeOf cid child0.depth ans)) },
               { child0 with children := [cid + 1] })
          | none => ({ st with repl := r.1, nextId := cid + 1 }, child0))
        else ({ st with nextId := cid + 1 }, base)
      (registerChild st2child.1 parentId parentNode cid st2child.2, cid)

/-- The `for child in children` loop of `_expand` (lines 192-248),
returning the registered children's ids in order. -/
def expandAll {σ : Type} (replExec : σ → String → σ × ExecOutcome)
    (getVar : σ → String → Option String) :
    SearchState σ → Nat → List Seed → SearchState σ × List Nat
  | st, _, [] => (st, [])
  | st, parentId, seed :: rest =>
      let r := expandSeed replExec getVar st parentId seed
      let r2 := expandAll replExec getVar r.1 parentId rest
      (r2.1, r.2 :: r2.2)

/-- `_backpropagate` (lines 254-260), instantiating the generic walk. -/
def bumpValue (value : ℚ) (n : ReasoningNode) : ReasoningNode :=
  { n with visits := n.visits + 1, total_value := n.total_value + value }

def _backpropagate (nodes : Nat → Option ReasoningNode) (node_id : Nat)
    (value : ℚ) (fuel : Nat) : Nat → Option ReasoningNode :=
  backpropAux (fun n => n.parent_id) (bumpValue value) nodes (some node_id) fuel

/-- One iteration of the `search` loop (lines 142-160): SELECT, possibly
EXPAND (moving the leaf to the first new child), EVALUATE through the
judge oracle, BACKPROPAGATE. Fuel for the two walks is `nextId`, enough
for any duplicate-free path of ids below `nextId`. -/
def searchIteration {σ : Type} (logF sqrtF : ℚ → ℚ) (c : ℚ) (maxDepth : Nat)
    (policy : SearchState σ → Nat → List Seed)
    (replExec : σ → String → σ × ExecOutcome)
    (getVar : σ → String → Option String)
    (valueFn : SearchState σ → Nat → ℚ)
    (st : SearchState σ) : SearchState σ :=
  let leaf := selectLoop logF sqrtF c st.nodes 0 st.nextId
  let stleaf : SearchState σ × Nat :=
    match st.nodes leaf with
    | some ln =>
        if ln.depth < maxDepth ∧ ln.children.isEmpty then
          let r := expandAll replExec getVar st leaf (policy st leaf)
          match r.2 with
          | [] => (r.1, leaf)
          | c0 :: _ => (r.1, c0)
        else (st, leaf)
    | none => (st, leaf)
  let st' := stleaf.1
  let leaf' := stleaf.2
  let value := valueFn st' leaf'
  { st' with nodes := _backpropagate st'.nodes leaf' value st'.nextId }

/-- Root creation at the top of `search` (lines 126-137). -/
def searchInit {σ : Type} (question : String) (repl : σ) : SearchState σ :=
  { nodes := Function.update (fun _ => none) 0
      (some { id := 0, content := question, node_type := "question",
              parent_id := none, children := [], visits := 0,
              total_value := 0, depth := 0, code := "",
              repl_stdout := "", repl_stderr := "", repl_vars := [] }),
    nextId := 1, repl := repl }

/-- `for _ in range(max_iterations)` (line 142): iterate the four phases. -/
def searchLoop {σ : Type} (logF sqrtF : ℚ → ℚ) (c : ℚ) (maxDepth : Nat)
    (policy : SearchState σ → Nat → List Seed)
    (replExec : σ → String → σ × ExecOutcome)
    (getVar : σ → String → Option String)
    (valueFn : SearchState σ → Nat → ℚ) :
    Nat → SearchState σ → SearchState σ
  | 0, st => st
  | k + 1, st =>
      searchLoop logF sqrtF c maxDepth policy replExec getVar valueFn k
        (searchIteration logF sqrtF c maxDepth policy replExec getVar valueFn st)

/-- The root's visit counter, `self.root.visits`. -/
def rootVisits {σ : Type} (st : SearchState σ) : Nat :=
  match st.nodes 0 with
  | some n => n.visits
  | none => 0

/-- Well-formedness of a transcript search state. -/
def WFT {σ : Type} (st : SearchState σ) : Prop :=
  WFcore (fun n => n.parent_id) (fun n => n.children) st.nodes st.nextId

end MctsEngine

/-! ## `rubric-discovery/backend/mcts_engine.py` — the rubric engine

Same conventions as the transcript engine: ids from a counter with root
id `0`; the two policy entry points (`expand_root`, `expand_refinement`)
and `repl.execute_rubric` are oracles (the latter is stateless in the
source — it builds a fresh namespace per call); rewards come from the
embedded `compute_rewards` via `value_network.evaluate_rubric`, which is a
thin synchronous wrapper around it. -/

namespace RubricEngine

open RewardSignals

/-- `RubricNode` (rubric mcts_engine.py lines 19-49), with the dataclass
defaults of the source. -/
structure RubricNode where
  id : Nat
  rubric_code : String
  node_type : String
  depth : Nat
  visits : Nat
  reward_generalization : ℚ
  reward_calibration : ℚ
  reward_discrimination : ℚ
  reward_validity : ℚ
  reward_iteration : ℚ
  reward_composite : ℚ
  train_results : List TestResult
  eval_results : List TestResult
  train_mae : ℚ
  eval_mae : ℚ
  stdout : String
  stderr : String
  execution_success : Bool
  parent_id : Option Nat
  children_ids : List Nat
  total_reward : ℚ
deriving DecidableEq

/-- `ucb_score` (lines 51-56), same shape as the transcript engine's. -/
def ucb_score (logF sqrtF : ℚ → ℚ) (n : RubricNode) (parent_visits : Nat)
    (exploration : ℚ) : WithTop ℚ :=
  if n.visits = 0 then ⊤
  else ((n.total_reward / n.visits + exploration * sqrtF (logF parent_visits / n.visits) : ℚ) : WithTop ℚ)

/-- The node dict produced by `RubricNode.to_dict` (lines 58-80). -/
structure SerializedRubricNode where
  id : Nat
  rubric_code : String
  node_type : String
  depth : Nat
  visits : Nat
  reward_generalization : ℚ
  reward_calibration : ℚ
  reward_discrimination : ℚ
  reward_validity : ℚ
  reward_iteration : ℚ
  reward_composite : ℚ
  train_mae : ℚ
  eval_mae : ℚ
  stdout : String
  stderr : String
  execution_success : Bool
  parent_id : Option Nat
  children_ids : List Nat
  train_results : List TestResult
  eval_results : List TestResult
deriving DecidableEq

/-- `to_dict` (lines 58-80): `stdout[:500]`, `stderr[:500]`, full
`rubric_code`, result lists capped at 20 entries. -/
def to_dict (n : RubricNode) : SerializedRubricNode :=
  { id := n.id,
    rubric_code := n.rubric_code,
    node_type := n.node_type,
    depth := n.depth,
    visits := n.visits,
    reward_generalization := n.reward_generalization,
    reward_calibration := n.reward_calibration,
    reward_discrimination := n.reward_discrimination,
    reward_validity := n.reward_validity,
    reward_iteration := n.reward_iteration,
    reward_composite := n.reward_composite,
    train_mae := n.train_mae,
    eval_mae := n.eval_mae,
    stdout := pySlice n.stdout 500,
    stderr := pySlice n.stderr 500,
    execution_success := n.execution_success,
    parent_id := n.parent_id,
    children_ids := n.children_ids,
    train_results := n.train_results.take 20,
    eval_results := n.eval_results.take 20 }

/-- Engine state: node map, fresh-id counter, and the `best_node`
reference (an id here). -/
structure RubricState where
  nodes : Nat → Option RubricNode
  nextId : Nat
  bestId : Option Nat

/-- The selection key of line 135; a missing id is unreachable under
well-formedness. -/
def childKey (logF sqrtF : ℚ → ℚ) (expl : ℚ) (nodes : Nat → Option RubricNode)
    (pv : Nat) (cid : Nat) : WithTop ℚ :=
  match nodes cid with
  | some child => ucb_score logF sqrtF child pv expl
  | none => ⊤

/-- `_select` (lines 129-139): descend while the node has children and is
above the depth cap; `current.visits or 1` floors the parent visits at 1;
an unvisited best child is returned immediately. -/
def selectLoop (logF sqrtF : ℚ → ℚ) (expl : ℚ) (nodes : Nat → Option RubricNode)
    (maxDepth : Nat) : Nat → Nat → Nat
  | cur, 0 => cur
  | cur, fuel + 1 =>
      match nodes cur with
      | none => cur
      | some node =>
          if node.children_ids.isEmpty ∨ ¬(node.depth < maxDepth) then cur
          else
            match MctsEngine.pymax (childKey logF sqrtF expl nodes (max node.visits 1)) node.children_ids with
            | none => cur
            | some best =>
                match nodes best with
                | some bn =>
                    if bn.visits = 0 then best
                    else selectLoop logF sqrtF expl nodes maxDepth best fuel
                | none => best

/-- What `repl.execute_rubric(code)` hands back (rubric repl_env.py
lines 123-130), as consumed by `_create_and_evaluate`. -/
structure ExecRubricResult where
  success : Bool
  train_results : List TestResult
  eval_results : List TestResult
  stdout : String
  stderr : String

/-- `_create_and_evaluate` (lines 185-233): build the child, copy the
execution result, compute the MAEs (dataclass default 1.0 when a result
list is empty), take `parent_mae` from a non-root parent's train MAE, run
the five reward signals, and register the child under its parent.
Returns the child's id. -/
def rubricChild (sqrtF : ℚ → ℚ) (execO : String → ExecRubricResult)
    (cid parentId : Nat) (parentNode : RubricNode) (code node_type : String) :
    RubricNode :=
  let result := execO code
  let train_mae := if result.train_results ≠ [] then _mae result.train_results else 1
  let eval_mae := if result.eval_results ≠ [] then _mae result.eval_results else 1
  let parent_mae : Option ℚ :=
    if parentNode.node_type ≠ "root" then some parentNode.train_mae else none
  let rewards := compute_rewards sqrtF code result.train_results
    result.eval_results result.success parent_mae
  { id := cid, rubric_code := code, node_type := node_type,
    depth := parentNode.depth + 1, visits := 0,
    reward_generalization := rewards.generalization,
    reward_calibration := rewards.calibration,
    reward_discrimination := rewards.discrimination,
    reward_validity := rewards.validity,
    reward_iteration := rewards.iteration,
    reward_composite := rewards.composite,
    train_results := result.train_results,
    eval_results := result.eval_results,
    train_mae := train_mae, eval_mae := eval_mae,
    stdout := result.stdout, stderr := result.stderr,
    execution_success := result.success,
    parent_id := some parentId, children_ids := [], total_reward := 0 }

def create_and_evaluate (sqrtF : ℚ → ℚ) (execO : String → ExecRubricResult)
    (st : RubricState) (parentId : Nat) (code : String) (node_type : String) :
    RubricState × Nat :=
  match st.nodes parentId with
  | none => (st, parentId)
  | some parentNode =>
      let cid := st.nextId
      let child := rubricChild sqrtF execO cid parentId parentNode code node_type
      let nodes' := Function.update
        (Function.update st.nodes parentId
          (some { parentNode with children_ids := parentNode.children_ids ++ [cid] }))
        cid (some child)
      ({ st with nodes := nodes', nextId := cid + 1 }, cid)

/-- `_expand` (lines 141-183): the root's first expansion goes through
`expand_root`, everything else through `expand_refinement`; both are LLM
oracles returning code candidates, each becoming one child. -/
def createStep (sqrtF : ℚ → ℚ) (execO : String → ExecRubricResult)
    (nodeId : Nat) (node_type : String)
    (acc : RubricState × List Nat) (code : String) : RubricState × List Nat :=
  let r := create_and_evaluate sqrtF execO acc.1 nodeId code node_type
  (r.1, acc.2 ++ [r.2])

def expandNode (sqrtF : ℚ → ℚ) (execO : String → ExecRubricResult)
    (policyRoot : RubricState → List String)
    (policyRefine : RubricState → Nat → List String)
    (st : RubricState) (nodeId : Nat) : RubricState × List Nat :=
  match st.nodes nodeId with
  | none => (st, [])
  | some node =>
      let candidates :=
        if node.node_type = "root" ∧ node.children_ids.isEmpty then policyRoot st
        else policyRefine st nodeId
      let node_type := if node.node_type = "root" then "hypothesis" else "refinement"
      candidates.foldl (createStep sqrtF execO nodeId node_type) (st, [])

/-- `_backpropagate` (lines 235-242), instantiating the generic walk. -/
def bumpReward (reward : ℚ) (n : RubricNode) : RubricNode :=
  { n with visits := n.visits + 1, total_reward := n.total_reward + reward }

def _backpropagate (nodes : Nat → Option RubricNode) (node_id : Nat)
    (reward : ℚ) (fuel : Nat) : Nat → Option RubricNode :=
  backpropAux (fun n => n.parent_id) (bumpReward reward) nodes (some node_id) fuel

/-- The best-node tracking of lines 116-117: replace the best id when the
child's composite strictly exceeds the current best's. -/
def bestOf (st : RubricState) (cid : Nat) (child : RubricNode) : Option Nat :=
  match st.bestId with
  | none => some cid
  | some b =>
      match st.nodes b with
      | some bn =>
          if bn.reward_composite < child.reward_composite then some cid
          else some b
      | none => some cid

/-- The `for child in children` tail of one `run` iteration
(lines 112-121): backpropagate each child's composite and track the best
node by composite. -/
def processChildren : RubricState → List Nat → RubricState
  | st, [] => st
  | st, cid :: rest =>
      let st' :=
        match st.nodes cid with
        | none => st
        | some child =>
            { st with nodes := _backpropagate st.nodes cid child.reward_composite st.nextId,
                      bestId := bestOf st cid child }
      processChildren st' rest

/-- One iteration of `run` (lines 104-121): SELECT from the root (id 0),
EXPAND, then EVALUATE + BACKPROPAGATE per child. -/
def runIteration (logF sqrtF : ℚ → ℚ) (expl : ℚ) (maxDepth : Nat)
    (execO : String → ExecRubricResult)
    (policyRoot : RubricState → List String)
    (policyRefine : RubricState → Nat → List String)
    (st : RubricState) : RubricState :=
  let leaf := selectLoop logF sqrtF expl st.nodes maxDepth 0 st.nextId
  let r := expandNode sqrtF execO policyRoot policyRefine st leaf
  processChildren r.1 r.2

/-- `MCTSRubricTree.__init__` (lines 98-100): a fresh root at id 0 with
the dataclass defaults. -/
def runInit : RubricState :=
  { nodes := Function.update (fun _ => none) 0
      (some { id := 0, rubric_code := "", node_type := "root", depth := 0,
              visits := 0, reward_generalization := 0, reward_calibration := 0,
              reward_discrimination := 0, reward_validity := 0,
              reward_iteration := 0, reward_composite := 0,
              train_results := [], eval_results := [], train_mae := 1,
              eval_mae := 1, stdout := "", stderr := "",
              execution_success := false, parent_id := none,
              children_ids := [], total_reward := 0 }),
    nextId := 1, bestId := none }

/-- `for iteration in range(self.max_iterations)` (line 104). -/
def runLoop (logF sqrtF : ℚ → ℚ) (expl : ℚ) (maxDepth : Nat)
    (execO : String → ExecRubricResult)
    (policyRoot : RubricState → List String)
    (policyRefine : RubricState → Nat → List String) :
    Nat → RubricState → RubricState
  | 0, st => st
  | k + 1, st =>
      runLoop logF sqrtF expl maxDepth execO policyRoot policyRefine k
        (runIteration logF sqrtF expl maxDepth execO policyRoot policyRefine st)

/-- The root's visit counter, `self.root.visits`. -/
def rootVisitsR (st : RubricState) : Nat :=
  match st.nodes 0 with
  | some n => n.visits
  | none => 0

/-- Well-formedness of a rubric search state. -/
def WFR (st : RubricState) : Prop :=
  WFcore (fun n => n.parent_id) (fun n => n.children_ids) st.nodes st.nextId

end RubricEngine

/-! ## `backend/value_network.py` — the LLM-as-judge scalar -/

namespace ValueNetwork

/-- Digits to a natural number. -/
def digitsToNat (ds : List Char) : Nat :=
  ds.foldl (fun acc c => acc * 10 + (c.toNat - 48)) 0

/-- Parse the regex match `(\d+\.?\d*)` starting at a digit: greedy
integer digits, an optional dot, then greedy fraction digits, valued as
Python `float` of the matched text. -/
def parseNumberAt (l : List Char) : ℚ :=
  let ds := l.takeWhile Char.isDigit
  let r := l.drop ds.length
  let intPart : ℚ := digitsToNat ds
  match r with
  | '.' :: r2 =>
      let fs := r2.takeWhile Char.isDigit
      intPart + (digitsToNat fs : ℚ) / ((10 : ℚ) ^ fs.length)
  | _ => intPart

/-- `re.search(r"(\d+\.?\d*)", text)`: first position where the pattern
matches, i.e. the first digit. -/
def findFirstNumber : List Char → Option ℚ
  | [] => none
  | c :: rest =>
      if c.isDigit then some (parseNumberAt (c :: rest))
      else findFirstNumber rest

/-- `_extract_score(text)` (value_network.py lines 74-80): first numeric
match clamped to `[0, 1]`, `0.5` when nothing parses. -/
def _extract_score (text : String) : ℚ :=
  match findFirstNumber (MctsEngine.pyStripWS text).toList with
  | some score => max 0 (min 1 score)
  | none => 1 / 2

/-- The scalar `evaluate_node` returns (lines 26-71): `0.5` for the root
unconditionally, otherwise `_extract_score` of the judge reply (the reply
itself is an oracle argument). -/
def evaluate_node_score (node_type : String) (judgeReply : String) : ℚ :=
  if node_type = "question" then 1 / 2 else _extract_score judgeReply

end ValueNetwork

/-- A stand-in for the Python interpreter's importable modules, used in
concrete runs: the stdlib modules the claims mention. -/
def stdModules : String → Bool := fun m =>
  m ∈ ["os", "sys", "re", "json", "math", "string", "collections", "functools", "itertools"]

/-- A concrete two-node transcript tree (root 0 with child 1) used to
exercise the backpropagation walk at a concrete input. -/
def c3nodesT : Nat → Option MctsEngine.ReasoningNode :=
  Function.update (Function.update (fun _ => none) 0
    (some { id := 0, content := "q", node_type := "question", parent_id := none,
            children := [1], visits := 0, total_value := 0, depth := 0, code := "",
            repl_stdout := "", repl_stderr := "", repl_vars := [] }))
    1
    (some { id := 1, content := "r", node_type := "reasoning", parent_id := some 0,
            children := [], visits := 0, total_value := 0, depth := 1, code := "",
            repl_stdout := "", repl_stderr := "", repl_vars := [] })

/-- A concrete two-node rubric tree (root 0 with child 1) used to
exercise the backpropagation walk at a concrete input. -/
def c3nodesR : Nat → Option RubricEngine.RubricNode :=
  Function.update (Function.update (fun _ => none) 0
    (some { id := 0, rubric_code := "", node_type := "root", depth := 0, visits := 0,
            reward_generalization := 0, reward_calibration := 0, reward_discrimination := 0,
            reward_validity := 0, reward_iteration := 0, reward_composite := 0,
            train_results := [], eval_results := [], train_mae := 1, eval_mae := 1,
            stdout := "", stderr := "", execution_success := false, parent_id := none,
            children_ids := [1], total_reward := 0 }))
    1
    (some { id := 1, rubric_code := "x", node_type := "hypothesis", depth := 1, visits := 0,
            reward_generalization := 0, reward_calibration := 0, reward_discrimination := 0,
            reward_validity := 0, reward_iteration := 0, reward_composite := 0,
            train_results := [], eval_results := [], train_mae := 1, eval_mae := 1,
            stdout := "", stderr := "", execution_success := false, parent_id := some 0,
            children_ids := [], total_reward := 0 })

/-! ## Formulas as the specification words them (for refinement checks) -/

namespace SpecFormulas

/-- The spec's iteration-signal formula for the parented case: "0.3 +
0.7·(parent_mae − current_mae)/parent_mae, clamped". -/
def iteration_reward_spec (current_mae parent_mae : ℚ) : ℚ :=
  clamp01 (3 / 10 + (7 / 10) * ((parent_mae - current_mae) / parent_mae))

end SpecFormulas

/-! # Helper lemmas -/

theorem clamp01_nonneg (x : ℚ) : 0 ≤ clamp01 x := le_max_left 0 _

theorem clamp01_le_one (x : ℚ) : clamp01 x ≤ 1 := by
  unfold clamp01
  exact max_le (by norm_num) (min_le_left 1 x)

theorem pyRound4_mono {x y : ℚ} (h : x ≤ y) : pyRound4 x ≤ pyRound4 y := by
  unfold pyRound4
  have hx : round (x * 10000) ≤ round (y * 10000) := by
    rw [round_eq, round_eq]
    exact Int.floor_le_floor (by linarith)
  have : ((round (x * 10000) : ℤ) : ℚ) ≤ ((round (y * 10000) : ℤ) : ℚ) := by
    exact_mod_cast hx
  linarith

theorem pyRound4_zero : pyRound4 0 = 0 := by
  unfold pyRound4; norm_num

theorem pyRound4_one : pyRound4 1 = 1 := by
  unfold pyRound4
  rw [one_mul, show (10000 : ℚ) = ((10000 : ℤ) : ℚ) by norm_num, round_intCast]
  norm_num

theorem pyRound4_mem_unit {x : ℚ} (h0 : 0 ≤ x) (h1 : x ≤ 1) :
    0 ≤ pyRound4 x ∧ pyRound4 x ≤ 1 := by
  constructor
  · have := pyRound4_mono h0; rwa [pyRound4_zero] at this
  · have := pyRound4_mono h1; rwa [pyRound4_one] at this

theorem pyRound4_clamp01_mem_unit (x : ℚ) :
    0 ≤ pyRound4 (clamp01 x) ∧ pyRound4 (clamp01 x) ≤ 1 :=
  pyRound4_mem_unit (clamp01_nonneg x) (clamp01_le_one x)

section BackpropLemmas

variable {v : Type} (parent : v → Option Nat) (bump : v → v)

theorem backpropAux_none (nodes : Nat → Option v) (fuel : Nat) :
    backpropAux parent bump nodes none fuel = nodes := by
  cases fuel <;> rfl

theorem backpropAux_step {nodes : Nat → Option v} {id : Nat} {node : v} (fuel : Nat)
    (hn : nodes id = some node) :
    backpropAux parent bump nodes (some id) (fuel + 1) =
      backpropAux parent bump (Function.update nodes id (some (bump node))) (parent node) fuel := by
  simp only [backpropAux, hn]

theorem parentPath_step {nodes : Nat → Option v} {id : Nat} {node : v} (fuel : Nat)
    (hn : nodes id = some node) :
    parentPath parent nodes id (fuel + 1) =
      match parent node with
      | none => some [id]
      | some q => (parentPath parent nodes q fuel).map (fun p => id :: p) := by
  conv_lhs => rw [parentPath]
  rw [hn]

theorem parentPath_head {nodes : Nat → Option v} {id fuel : Nat} {p : List Nat}
    (h : parentPath parent nodes id fuel = some p) : ∃ t, p = id :: t := by
  cases fuel with
  | zero => simp [parentPath] at h
  | succ f =>
    unfold parentPath at h
    split at h
    · exact absurd h (by simp)
    · split at h
      · exact ⟨[], by injection h with h; exact h.symm⟩
      · rw [Option.map_eq_some'] at h
        obtain ⟨t, _, ht⟩ := h
        exact ⟨t, ht.symm⟩

theorem parentPath_congr {nodes nodes' : Nat → Option v} {id fuel : Nat} {p : List Nat}
    (h : parentPath parent nodes id fuel = some p)
    (hagree : ∀ i ∈ p, nodes' i = nodes i) :
    parentPath parent nodes' id fuel = some p := by
  induction fuel generalizing id p with
  | zero => simp [parentPath] at h
  | succ f ih =>
    obtain ⟨t, rfl⟩ := parentPath_head parent h
    have hn : ∃ node, nodes id = some node := by
      unfold parentPath at h
      split at h
      · exact absurd h (by simp)
      next node _ => exact ⟨node, by assumption⟩
    obtain ⟨node, hn⟩ := hn
    have hid : nodes' id = some node := by rw [hagree id (by simp), hn]
    rw [parentPath_step parent f hn] at h
    rw [parentPath_step parent f hid]
    cases hp : parent node with
    | none => simp only [hp] at h ⊢; exact h
    | some q =>
      simp only [hp] at h ⊢
      rw [Option.map_eq_some'] at h ⊢
      obtain ⟨t', ht', heq⟩ := h
      have : t' = t := by injection heq
      subst this
      exact ⟨t', ih ht' (fun i hi => hagree i (by simp [hi])), rfl⟩

theorem parentPath_mem_isSome {nodes : Nat → Option v} {id fuel : Nat} {p : List Nat}
    (h : parentPath parent nodes id fuel = some p) :
    ∀ i ∈ p, (nodes i).isSome := by
  induction fuel generalizing id p with
  | zero => simp [parentPath] at h
  | succ f ih =>
    unfold parentPath at h
    split at h
    · exact absurd h (by simp)
    next node hn =>
      split at h
      next hp =>
        intro i hi
        have : p = [id] := by injection h with h; exact h.symm
        subst this
        simp only [List.mem_singleton] at hi
        subst hi; simp [hn]
      next q hp =>
        rw [Option.map_eq_some'] at h
        obtain ⟨t, ht, rfl⟩ := h
        intro i hi
        rcases List.mem_cons.mp hi with rfl | hit
        · simp [hn]
        · exact ih ht i hit

theorem backpropAux_path {nodes : Nat → Option v} {id fuel₁ fuel₂ : Nat} {p : List Nat}
    (h : parentPath parent nodes id fuel₁ = some p)
    (hnd : p.Nodup) (hfuel : p.length ≤ fuel₂) :
    (∀ i ∈ p, ∃ n, nodes i = some n ∧
        backpropAux parent bump nodes (some id) fuel₂ i = some (bump n)) ∧
    (∀ i, i ∉ p → backpropAux parent bump nodes (some id) fuel₂ i = nodes i) := by
  induction fuel₁ generalizing id p nodes fuel₂ with
  | zero => simp [parentPath] at h
  | succ f ih =>
    obtain ⟨t0, rfl⟩ := parentPath_head parent h
    cases fuel₂ with
    | zero => simp at hfuel
    | succ f₂ =>
      have hn : ∃ node, nodes id = some node := by
        unfold parentPath at h
        split at h
        · exact absurd h (by simp)
        next node _ => exact ⟨node, by assumption⟩
      obtain ⟨node, hn⟩ := hn
      rw [parentPath_step parent f hn] at h
      rw [backpropAux_step parent bump f₂ hn]
      cases hp : parent node with
      | none =>
        simp only [hp] at h
        rw [backpropAux_none]
        have : t0 = [] := by
          injection h with h
          injection h with h1 h2
          exact h2.symm
        subst this
        constructor
        · intro i hi
          simp only [List.mem_singleton] at hi
          subst hi
          exact ⟨node, hn, Function.update_same _ _ _⟩
        · intro i hi
          simp only [List.mem_singleton] at hi
          exact Function.update_noteq hi _ _
      | some q =>
        simp only [hp] at h
        rw [Option.map_eq_some'] at h
        obtain ⟨t, ht, heq⟩ := h
        have : t = t0 := by injection heq
        subst this
        have hid_not_t : id ∉ t := (List.nodup_cons.mp hnd).1
        have hnd_t : t.Nodup := (List.nodup_cons.mp hnd).2
        have hlen : t.length ≤ f₂ := by
          simpa using Nat.le_of_succ_le_succ (by simpa using hfuel)
        set nodes' := Function.update nodes id (some (bump node)) with hnodes'
        have hagree : ∀ i ∈ t, nodes' i = nodes i := by
          intro i hi
          refine Function.update_noteq (fun hne => hid_not_t ?_) _ _
          rw [← hne]
          exact hi
        have ht' : parentPath parent nodes' q f = some t :=
          parentPath_congr parent ht hagree
        have hrec := ih ht' hnd_t hlen
        constructor
        · intro i hi
          rcases List.mem_cons.mp hi with rfl | hit
          · refine ⟨node, hn, ?_⟩
            rw [hrec.2 i hid_not_t]
            exact Function.update_same _ _ _
          · obtain ⟨n, hn', hb⟩ := hrec.1 i hit
            refine ⟨n, ?_, hb⟩
            rw [← hn', hagree i hit]
        · intro i hi
          have hi_t : i ∉ t := fun hit => hi (List.mem_cons_of_mem _ hit)
          have hi_id : i ≠ id := fun hne => hi (by rw [hne]; exact List.mem_cons_self _ _)
          rw [hrec.2 i hi_t]
          exact Function.update_noteq hi_id _ _

end BackpropLemmas

theorem nodup_lt_length_le {p : List Nat} {b : Nat} (hnd : p.Nodup)
    (hb : ∀ x ∈ p, x < b) : p.length ≤ b := by
  have h1 : p.toFinset.card = p.length := List.toFinset_card_of_nodup hnd
  have h2 : p.toFinset ⊆ Finset.range b := by
    intro x hx
    rw [List.mem_toFinset] at hx
    rw [Finset.mem_range]
    exact hb x hx
  have h3 := Finset.card_le_card h2
  rw [h1, Finset.card_range] at h3
  exact h3

section EngineInvariants

variable {v : Type} (parent : v → Option Nat) (childrenOf : v → List Nat) (bump : v → v)

/-- Congruence for parent paths: only the parent pointers along the path
matter. -/
theorem parentPath_congr_parent {nodes nodes' : Nat → Option v} {id fuel : Nat}
    {p : List Nat} (h : parentPath parent nodes id fuel = some p)
    (hagree : ∀ i ∈ p, ∃ n n2, nodes i = some n ∧ nodes' i = some n2 ∧ parent n2 = parent n) :
    parentPath parent nodes' id fuel = some p := by
  induction fuel generalizing id p with
  | zero => simp [parentPath] at h
  | succ f ih =>
    obtain ⟨t, rfl⟩ := parentPath_head parent h
    obtain ⟨n, n2, hn, hn2, hpar⟩ := hagree id (by simp)
    rw [parentPath_step parent f hn] at h
    rw [parentPath_step parent f hn2, hpar]
    cases hp : parent n with
    | none =>
      simp only [hp] at h ⊢
      exact h
    | some q =>
      simp only [hp] at h ⊢
      rw [Option.map_eq_some'] at h ⊢
      obtain ⟨t2, ht2, heq⟩ := h
      have : t2 = t := by injection heq
      subst this
      exact ⟨t2, ih ht2 (fun i hi => hagree i (by simp [hi])), rfl⟩

/-- Backpropagation from an allocated leaf with fuel equal to the id bound
preserves well-formedness, preserves which ids are allocated, and bumps
the root exactly once. -/
theorem backprop_wfcore {nodes : Nat → Option v} {bound leaf : Nat}
    (hbp : ∀ n, parent (bump n) = parent n)
    (hbc : ∀ n, childrenOf (bump n) = childrenOf n)
    (hwf : WFcore parent childrenOf nodes bound)
    (hleaf : (nodes leaf).isSome) :
    WFcore parent childrenOf (backpropAux parent bump nodes (some leaf) bound) bound ∧
    (∀ i, (nodes i).isSome ↔ (backpropAux parent bump nodes (some leaf) bound i).isSome) ∧
    (∃ rn, nodes 0 = some rn ∧
      backpropAux parent bump nodes (some leaf) bound 0 = some (bump rn)) := by
  obtain ⟨hW0, hW1, hW2, hW3⟩ := hwf
  obtain ⟨p, f, hP, hnd, hbound, hlast⟩ := hW3 leaf hleaf
  have hlen : p.length ≤ bound := nodup_lt_length_le hnd hbound
  have hpath := backpropAux_path parent bump hP hnd hlen
  set nodes' := backpropAux parent bump nodes (some leaf) bound with hnodes'
  have hchange : ∀ i, (i ∈ p ∧ ∃ n, nodes i = some n ∧ nodes' i = some (bump n)) ∨
      (i ∉ p ∧ nodes' i = nodes i) := by
    intro i
    by_cases hi : i ∈ p
    · obtain ⟨n, hn, hb⟩ := hpath.1 i hi
      exact Or.inl ⟨hi, n, hn, hb⟩
    · exact Or.inr ⟨hi, hpath.2 i hi⟩
  have hpres : ∀ i, (nodes i).isSome ↔ (nodes' i).isSome := by
    intro i
    rcases hchange i with ⟨_, n, hn, hb⟩ | ⟨_, heq⟩
    · rw [hn, hb]
      simp
    · rw [heq]
  have hroot_mem : (0 : Nat) ∈ p := by
    have := List.mem_of_getLast?_eq_some hlast
    exact this
  have hroot : ∃ rn, nodes 0 = some rn ∧ nodes' 0 = some (bump rn) := by
    rcases hchange 0 with ⟨_, n, hn, hb⟩ | ⟨habs, _⟩
    · exact ⟨n, hn, hb⟩
    · exact absurd hroot_mem habs
  refine ⟨⟨?_, ?_, ?_, ?_⟩, hpres, hroot⟩
  · intro i hi
    have hnone : nodes i = none := hW0 i hi
    rcases hchange i with ⟨_, n, hn, _⟩ | ⟨_, heq⟩
    · rw [hn] at hnone
      cases hnone
    · rw [heq]
      exact hnone
  · obtain ⟨rn, hrn, hparn⟩ := hW1
    obtain ⟨rn2, hrn2, hb2⟩ := hroot
    have : rn2 = rn := by
      rw [hrn] at hrn2
      exact (Option.some_injective _ hrn2).symm
    subst this
    exact ⟨bump rn2, hb2, by rw [hbp, hparn]⟩
  · intro i n2 hn2 c hc
    rcases hchange i with ⟨_, n, hn, hb⟩ | ⟨_, heq⟩
    · have : n2 = bump n := by
        rw [hb] at hn2
        exact (Option.some_injective _ hn2).symm
      subst this
      rw [hbc] at hc
      rw [← hpres c]
      exact hW2 i n hn c hc
    · rw [heq] at hn2
      rw [← hpres c]
      exact hW2 i n2 hn2 c hc
  · intro i hi
    have hi_old : (nodes i).isSome := (hpres i).mpr hi
    obtain ⟨p2, f2, hP2, hnd2, hbound2, hlast2⟩ := hW3 i hi_old
    refine ⟨p2, f2, ?_, hnd2, hbound2, hlast2⟩
    apply parentPath_congr_parent parent hP2
    intro x hx
    have hx_old : (nodes x).isSome := parentPath_mem_isSome parent hP2 x hx
    rcases hchange x with ⟨_, n, hn, hb⟩ | ⟨_, heq⟩
    · exact ⟨n, bump n, hn, hb, hbp n⟩
    · obtain ⟨n, hn⟩ := Option.isSome_iff_exists.mp hx_old
      exact ⟨n, n, hn, by rw [heq, hn], rfl⟩

/-- Registering a fresh leaf child under a present parent (give the
parent its new children list, bind the child at the fresh id) preserves
well-formedness and grows the id bound by one. -/
theorem addNode_wfcore {nodes : Nat → Option v} {bound parentId : Nat}
    {pn pn' child : v}
    (hwf : WFcore parent childrenOf nodes bound)
    (hpn : nodes parentId = some pn)
    (hpn'p : parent pn' = parent pn)
    (hpn'c : childrenOf pn' = childrenOf pn ++ [bound])
    (hcp : parent child = some parentId)
    (hcc : childrenOf child = []) :
    WFcore parent childrenOf
      (Function.update (Function.update nodes parentId (some pn')) bound (some child))
      (bound + 1) ∧
    (∀ i n, nodes i = some n → i ≠ parentId →
      Function.update (Function.update nodes parentId (some pn')) bound (some child) i = some n) ∧
    Function.update (Function.update nodes parentId (some pn')) bound (some child) parentId
      = some pn' ∧
    Function.update (Function.update nodes parentId (some pn')) bound (some child) bound
      = some child := by
  obtain ⟨hW0, hW1, hW2, hW3⟩ := hwf
  have hpid_lt : parentId < bound := by
    by_contra hge
    rw [hW0 parentId (le_of_not_lt hge)] at hpn
    cases hpn
  have hpid_ne : parentId ≠ bound := Nat.ne_of_lt hpid_lt
  set newMap := Function.update (Function.update nodes parentId (some pn')) bound (some child)
    with hnewMap
  have hchar : ∀ i, newMap i =
      if i = bound then some child
      else if i = parentId then some pn' else nodes i := by
    intro i
    rw [hnewMap]
    by_cases h1 : i = bound
    · subst h1
      rw [if_pos rfl, Function.update_same]
    · rw [if_neg h1, Function.update_noteq h1]
      by_cases h2 : i = parentId
      · subst h2
        rw [if_pos rfl, Function.update_same]
      · rw [if_neg h2, Function.update_noteq h2]
  have hold : ∀ i n, nodes i = some n → i ≠ parentId → newMap i = some n := by
    intro i n hn hne
    rw [hchar i, if_neg, if_neg hne]
    · exact hn
    · intro hib
      subst hib
      rw [hW0 i (le_refl _)] at hn
      cases hn
  have hpres : ∀ i, (nodes i).isSome → (newMap i).isSome := by
    intro i hi
    rw [hchar i]
    split_ifs with h1 h2
    · simp
    · simp
    · exact hi
  have hpath_pres : ∀ {i p2 f2}, parentPath parent nodes i f2 = some p2 →
      parentPath parent newMap i f2 = some p2 := by
    intro i p2 f2 hP2
    apply parentPath_congr_parent parent hP2
    intro x hx
    have hx_old := parentPath_mem_isSome parent hP2 x hx
    obtain ⟨n, hn⟩ := Option.isSome_iff_exists.mp hx_old
    have hxb : x ≠ bound := by
      intro hxb
      subst hxb
      rw [hW0 x (le_refl _)] at hn
      cases hn
    by_cases h2 : x = parentId
    · subst h2
      refine ⟨n, pn', hn, ?_, ?_⟩
      · rw [hchar x, if_neg hxb, if_pos rfl]
      · have : n = pn := by
          rw [hpn] at hn
          exact (Option.some_injective _ hn).symm
        subst this
        exact hpn'p
    · refine ⟨n, n, hn, ?_, rfl⟩
      rw [hchar x, if_neg hxb, if_neg h2]
      exact hn
  refine ⟨⟨?_, ?_, ?_, ?_⟩, hold, ?_, ?_⟩
  · intro i hi
    rw [hchar i, if_neg, if_neg]
    · exact hW0 i (le_trans (Nat.le_succ _) hi)
    · intro h2
      subst h2
      exact absurd hi (by omega)
    · intro h1
      subst h1
      omega
  · obtain ⟨rn, hrn, hparn⟩ := hW1
    have h0b : (0 : Nat) ≠ bound := by omega
    by_cases h0p : (0 : Nat) = parentId
    · refine ⟨pn', ?_, ?_⟩
      · rw [hchar 0, if_neg h0b, if_pos h0p]
      · rw [hpn'p]
        have : pn = rn := by
          rw [← h0p] at hpn
          rw [hpn] at hrn
          exact Option.some_injective _ hrn
        rw [this]
        exact hparn
    · refine ⟨rn, ?_, hparn⟩
      rw [hchar 0, if_neg h0b, if_neg h0p]
      exact hrn
  · intro i n2 hn2 c hc
    rw [hchar i] at hn2
    by_cases h1 : i = bound
    · rw [if_pos h1] at hn2
      have : n2 = child := Option.some_injective _ hn2.symm
      subst this
      rw [hcc] at hc
      cases hc
    · rw [if_neg h1] at hn2
      by_cases h2 : i = parentId
      · rw [if_pos h2] at hn2
        have : n2 = pn' := Option.some_injective _ hn2.symm
        subst this
        rw [hpn'c] at hc
        rcases List.mem_append.mp hc with hcold | hcnew
        · have := hW2 parentId pn hpn c hcold
          exact hpres c this
        · simp only [List.mem_singleton] at hcnew
          subst hcnew
          rw [hchar c, if_pos rfl]
          simp
      · rw [if_neg h2] at hn2
        have := hW2 i n2 hn2 c hc
        exact hpres c this
  · intro i hi
    by_cases h1 : i = bound
    · subst h1
      obtain ⟨p2, f2, hP2, hnd2, hbd2, hlast2⟩ := hW3 parentId (by rw [hpn]; simp)
      obtain ⟨t2, rfl⟩ := parentPath_head parent hP2
      refine ⟨i :: parentId :: t2, f2 + 1, ?_, ?_, ?_, ?_⟩
      · rw [parentPath_step parent f2 (by rw [hchar i, if_pos rfl] : newMap i = some child)]
        rw [hcp]
        show (parentPath parent newMap parentId f2).map (fun p => i :: p)
          = some (i :: parentId :: t2)
        rw [hpath_pres hP2]
        rfl
      · rw [List.nodup_cons]
        refine ⟨?_, hnd2⟩
        intro hmem
        have := hbd2 i hmem
        omega
      · intro x hx
        rcases List.mem_cons.mp hx with rfl | hx2
        · omega
        · have := hbd2 x hx2
          omega
      · rw [List.getLast?_cons_cons]
        exact hlast2
    · have hi_old : (nodes i).isSome := by
        rw [hchar i, if_neg h1] at hi
        by_cases h2 : i = parentId
        · rw [h2, hpn]
          simp
        · rw [if_neg h2] at hi
          exact hi
      obtain ⟨p2, f2, hP2, hnd2, hbd2, hlast2⟩ := hW3 i hi_old
      exact ⟨p2, f2, hpath_pres hP2, hnd2, fun x hx => Nat.lt_succ_of_lt (hbd2 x hx), hlast2⟩
  · rw [hchar parentId, if_neg hpid_ne, if_pos rfl]
  · rw [hchar bound, if_pos rfl]

end EngineInvariants

theorem pySlice_length_le (s : String) (n : Nat) : (pySlice s n).length ≤ n := by
  unfold pySlice
  show (s.toList.take n).length ≤ n
  exact List.length_take_le n s.toList

namespace RewardSignals

theorem generalization_reward_mem (t e : List TestResult) :
    0 ≤ generalization_reward t e ∧ generalization_reward t e ≤ 1 := by
  simp only [generalization_reward]
  split_ifs <;> first | exact pyRound4_clamp01_mem_unit _ | norm_num

theorem calibration_reward_mem (sqrtF : ℚ → ℚ) (res : List TestResult) :
    0 ≤ calibration_reward sqrtF res ∧ calibration_reward sqrtF res ≤ 1 := by
  simp only [calibration_reward]
  split_ifs <;> first | exact pyRound4_clamp01_mem_unit _ | norm_num

theorem discrimination_reward_mem (res : List TestResult) :
    0 ≤ discrimination_reward res ∧ discrimination_reward res ≤ 1 := by
  simp only [discrimination_reward]
  split_ifs <;> first | exact pyRound4_clamp01_mem_unit _ | norm_num

theorem validity_reward_mem (code : String) (succ : Bool) :
    0 ≤ validity_reward code succ ∧ validity_reward code succ ≤ 1 := by
  simp only [validity_reward]
  split_ifs <;> first | exact pyRound4_clamp01_mem_unit _ | norm_num

theorem iteration_reward_mem (c : ℚ) (p : Option ℚ) :
    0 ≤ iteration_reward c p ∧ iteration_reward c p ≤ 1 := by
  match p with
  | none => exact pyRound4_clamp01_mem_unit _
  | some pmae =>
    simp only [iteration_reward]
    split_ifs with h1 h2 h3
    · norm_num
    · norm_num
    · refine pyRound4_mem_unit (le_min (by norm_num) ?_) (min_le_left _ _)
      have h7 : 0 < (pmae - c) / pmae * (7 / 10) := by
        have : (0 : ℚ) < 7 / 10 := by norm_num
        exact mul_pos h3 this
      linarith
    · push_neg at h3
      exact pyRound4_mem_unit (le_max_left _ _) (max_le (by norm_num) (by linarith))

end RewardSignals

namespace ValueNetwork

theorem extract_score_mem (text : String) :
    0 ≤ _extract_score text ∧ _extract_score text ≤ 1 := by
  unfold _extract_score
  match findFirstNumber (MctsEngine.pyStripWS text).toList with
  | some score =>
      exact ⟨le_max_left _ _, max_le (by norm_num) (min_le_left _ _)⟩
  | none => norm_num

theorem evaluate_node_score_mem (node_type reply : String) :
    0 ≤ evaluate_node_score node_type reply ∧ evaluate_node_score node_type reply ≤ 1 := by
  unfold evaluate_node_score
  split_ifs with h1
  · norm_num
  · exact extract_score_mem reply

end ValueNetwork

namespace ReplEnv

theorem dictLookup_dictInsert (d : Dict) (k : String) (v : Value) :
    dictLookup (dictInsert d k v) k = some v := by
  unfold dictInsert
  by_cases h : (d.find? (fun p => p.1 = k)).isSome
  · rw [if_pos h]
    induction d with
    | nil => simp at h
    | cons hd tl ih =>
      by_cases hk : hd.1 = k
      · unfold dictLookup
        rw [List.map_cons, if_pos hk]
        simp
      · unfold dictLookup
        rw [List.map_cons, if_neg hk]
        rw [List.find?_cons_of_neg _ (by simpa using hk)]
        have h' : (tl.find? (fun p => p.1 = k)).isSome := by
          rw [List.find?_cons_of_neg _ (by simpa using hk)] at h
          exact h
        exact ih h'
  · rw [if_neg h]
    unfold dictLookup
    rw [Option.not_isSome_iff_eq_none] at h
    induction d with
    | nil => simp
    | cons hd tl ih =>
      have hk : ¬(hd.1 = k) := by
        intro hc
        rw [List.find?_cons_of_pos _ (by simpa using hc)] at h
        simp at h
      rw [List.cons_append, List.find?_cons_of_neg _ (by simpa using hk)]
      rw [List.find?_cons_of_neg _ (by simpa using hk)] at h
      exact ih h

theorem dictLookup_dictInsert_ne (d : Dict) (k k2 : String) (v : Value)
    (hne : k2 ≠ k) : dictLookup (dictInsert d k v) k2 = dictLookup d k2 := by
  unfold dictInsert
  by_cases h : (d.find? (fun p => p.1 = k)).isSome
  · rw [if_pos h]
    unfold dictLookup
    clear h
    induction d with
    | nil => simp
    | cons hd tl ih =>
      rw [List.map_cons]
      by_cases hk : hd.1 = k
      · rw [if_pos hk]
        rw [List.find?_cons_of_neg _ (by simpa using (Ne.symm hne)),
          List.find?_cons_of_neg _ (by simp [hk]; exact fun hc => hne (hc ▸ hk ▸ rfl))]
        exact ih
      · rw [if_neg hk]
        by_cases h2 : hd.1 = k2
        · rw [List.find?_cons_of_pos _ (by simpa using h2),
            List.find?_cons_of_pos _ (by simpa using h2)]
        · rw [List.find?_cons_of_neg _ (by simpa using h2),
            List.find?_cons_of_neg _ (by simpa using h2)]
          exact ih
  · rw [if_neg h]
    unfold dictLookup
    rw [List.find?_append]
    have : List.find? (fun p => p.1 = k2) [(k, v)] = none := by
      simp [List.find?, hne.symm]
    rw [this]
    simp

/-- Presence of a key is preserved by inserts. -/
theorem dictLookup_isSome_dictInsert (d : Dict) (k k2 : String) (v : Value)
    (h : (dictLookup d k2).isSome) : (dictLookup (dictInsert d k v) k2).isSome := by
  by_cases hk : k2 = k
  · subst hk
    rw [dictLookup_dictInsert]
    rfl
  · rw [dictLookup_dictInsert_ne _ _ _ _ hk]
    exact h

/-- `runImports` only inserts into the globals, so present keys stay
present. -/
theorem runImports_preserves_isSome (modules : String → Bool) (k : String) :
    ∀ (code : List Stmt) (g : Dict), (dictLookup g k).isSome →
      (dictLookup (runImports modules g code).1 k).isSome := by
  intro code
  induction code with
  | nil => intro g hg; exact hg
  | cons s rest ih =>
    intro g hg
    cases s with
    | importMod m =>
      unfold runImports
      by_cases hm : modules m = true
      · rw [if_pos hm]
        exact ih _ (dictLookup_isSome_dictInsert _ _ _ _ hg)
      · rw [if_neg hm]
        exact hg
    | assign x e => exact ih g hg
    | print e => exact ih g hg
    | assignLlm x p => exact ih g hg

theorem runImports_single (modules : String → Bool) (g : Dict) (m : String)
    (hm : modules m = true) :
    runImports modules g [Stmt.importMod m] = (dictInsert g m (Value.moduleV m), none) := by
  unfold runImports
  rw [if_pos hm]
  rfl

theorem truncRepr_length_le (v : Value) : (truncRepr v).length ≤ 200 := by
  unfold truncRepr
  cases hp : pyRepr v with
  | some r =>
    simp only [hp]
    split_ifs with h
    · exact pySlice_length_le _ _
    · omega
  | none =>
    simp only [hp]
    decide

theorem localsSnapshot_keys {l : Dict} {k r : String}
    (h : (k, r) ∈ localsSnapshot l) :
    k ≠ "context" ∧ pyStartsWith k "_" = false ∧ r.length ≤ 200 := by
  unfold localsSnapshot at h
  rw [List.mem_map] at h
  obtain ⟨p, hp, heq⟩ := h
  rw [List.mem_filter] at hp
  obtain ⟨hmem, hpred⟩ := hp
  have hk : p.1 = k := congrArg Prod.fst heq
  have hr : truncRepr p.2 = r := congrArg Prod.snd heq
  rw [Bool.and_eq_true, Bool.not_eq_true'] at hpred
  refine ⟨?_, ?_, ?_⟩
  · rw [← hk]
    simpa using hpred.2
  · rw [← hk]
    exact hpred.1
  · rw [← hr]
    exact truncRepr_length_le _

theorem localsSnapshot_mem_of {l : Dict} {k : String} {v : Value}
    (h : (k, v) ∈ l) (h1 : pyStartsWith k "_" = false) (h2 : k ≠ "context") :
    (k, truncRepr v) ∈ localsSnapshot l := by
  unfold localsSnapshot
  rw [List.mem_map]
  refine ⟨(k, v), ?_, rfl⟩
  rw [List.mem_filter]
  refine ⟨h, ?_⟩
  rw [Bool.and_eq_true, Bool.not_eq_true']
  exact ⟨h1, by simpa using h2⟩

theorem dictLookup_foldl_skip (g2 : Dict) (k : String)
    (l : List (String × Value)) (init : Dict)
    (hk : ∀ p : String × Value, p ∈ l →
      ((dictLookup g2 p.1).isSome || pyStartsWith p.1 "_") = false → p.1 ≠ k) :
    dictLookup (l.foldl (fun acc p =>
      if (dictLookup g2 p.1).isSome || pyStartsWith p.1 "_" then acc
      else dictInsert acc p.1 p.2) init) k = dictLookup init k := by
  induction l generalizing init with
  | nil => rfl
  | cons p rest ih =>
    rw [List.foldl_cons]
    by_cases hc : ((dictLookup g2 p.1).isSome || pyStartsWith p.1 "_") = true
    · rw [if_pos hc]
      exact ih _ (fun q hq hg => hk q (List.mem_cons_of_mem _ hq) hg)
    · rw [if_neg hc]
      rw [ih _ (fun q hq hg => hk q (List.mem_cons_of_mem _ hq) hg)]
      exact dictLookup_dictInsert_ne _ _ _ _
        (Ne.symm (hk p (List.mem_cons_self _ _) (by simpa using hc)))

/-- The snapshot field of the result equals the snapshot of the result
state's locals, in every branch of `execute`. -/
theorem execute_snapshot_eq (modules : String → Bool) (provider : String → String)
    (st : REPLState) (code : List Stmt) :
    ((execute modules provider st code).2).locals_snapshot
      = localsSnapshot ((execute modules provider st code).1).locals := by
  unfold execute
  rcases hri : runImports modules st.globals (code.filter isImport) with ⟨g2, err⟩
  cases err with
  | some msg => simp only [hri]
  | none =>
    simp only [hri]
    by_cases he : (code.filter (fun s => !isImport s)).isEmpty = true
    · rw [if_pos he]
    · rw [if_neg he]
      rcases hrs : runStmts provider
          { ns := dictMerge g2 st.locals, count := 0, stdout := "", trace := [] }
          (code.filter (fun s => !isImport s)) with ⟨s, err2⟩
      cases err2 with
      | some msg => simp only [hrs]
      | none => simp only [hrs]

theorem execute_locals_preserved (modules : String → Bool) (provider : String → String)
    (st : REPLState) (code : List Stmt) (k : String)
    (hk : pyStartsWith k "_" = true ∨ (dictLookup st.globals k).isSome) :
    dictLookup ((execute modules provider st code).1).locals k
      = dictLookup st.locals k := by
  unfold execute
  rcases hri : runImports modules st.globals (code.filter isImport) with ⟨g2, err⟩
  have hg2 : (dictLookup st.globals k).isSome → (dictLookup g2 k).isSome := by
    intro h2
    have h3 := runImports_preserves_isSome modules k (code.filter isImport) st.globals h2
    rw [hri] at h3
    exact h3
  cases err with
  | some msg => simp only [hri]
  | none =>
    simp only [hri]
    by_cases he : (code.filter (fun s => !isImport s)).isEmpty = true
    · rw [if_pos he]
    · rw [if_neg he]
      rcases hrs : runStmts provider
          { ns := dictMerge g2 st.locals, count := 0, stdout := "", trace := [] }
          (code.filter (fun s => !isImport s)) with ⟨s, err2⟩
      cases err2 with
      | some msg => simp only [hrs]
      | none =>
        simp only [hrs]
        apply dictLookup_foldl_skip
        intro p hp hg
        rw [Bool.or_eq_false_iff] at hg
        intro hpk
        rcases hk with hu | hs
        · rw [hpk] at hg
          rw [hg.2] at hu
          exact Bool.false_ne_true hu
        · have h4 := hg2 hs
          rw [hpk] at hg
          rw [hg.1] at h4
          exact Bool.false_ne_true h4

theorem stepStmt_traceOk (provider : String → String) (s : ExecSt) (stmt : Stmt)
    (hs : TraceOk provider s) :
    (∀ s2, stepStmt provider s stmt = .ok s2 → TraceOk provider s2) ∧
    (∀ e, stepStmt provider s stmt = .error e → TraceOk provider e.1) := by
  cases stmt with
  | importMod m =>
    constructor
    · intro s2 h2
      injection h2 with h2
      rw [← h2]
      exact hs
    · intro e he
      cases he
  | assign x e =>
    constructor
    · intro s2 h2
      simp only [stepStmt] at h2
      cases hev : evalExpr s.ns e with
      | ok v =>
        simp only [hev] at h2
        injection h2 with h2
        rw [← h2]
        exact hs
      | error msg =>
        simp only [hev] at h2
        cases h2
    · intro e2 he
      simp only [stepStmt] at he
      cases hev : evalExpr s.ns e with
      | ok v =>
        simp only [hev] at he
        cases he
      | error msg =>
        simp only [hev] at he
        injection he with he
        rw [← he]
        exact hs
  | print e =>
    constructor
    · intro s2 h2
      simp only [stepStmt] at h2
      cases hev : evalExpr s.ns e with
      | ok v =>
        simp only [hev] at h2
        injection h2 with h2
        rw [← h2]
        exact hs
      | error msg =>
        simp only [hev] at h2
        cases h2
    · intro e2 he
      simp only [stepStmt] at he
      cases hev : evalExpr s.ns e with
      | ok v =>
        simp only [hev] at he
        cases he
      | error msg =>
        simp only [hev] at he
        injection he with he
        rw [← he]
        exact hs
  | assignLlm x pe =>
    have key : ∀ p : String, TraceOk provider
        { s with ns := dictInsert s.ns x (.strV (llm_query provider s.count p).2.reply),
                 count := (llm_query provider s.count p).1,
                 trace := s.trace ++ [(llm_query provider s.count p).2] } := by
      intro p
      obtain ⟨hc, ht⟩ := hs
      constructor
      · show (llm_query provider s.count p).1 = (s.trace ++ [(llm_query provider s.count p).2]).length
        unfold llm_query
        split_ifs with hgt
        · simp [hc]
        · simp [hc]
      · intro j h
        show LlmCallOk provider j ((s.trace ++ [(llm_query provider s.count p).2]).get ⟨j, h⟩)
        by_cases hj : j < s.trace.length
        · rw [List.get_append_left _ _ hj]
          exact ht j hj
        · have hlen : (s.trace ++ [(llm_query provider s.count p).2]).length
              = s.trace.length + 1 := by simp
          have hje : j = s.trace.length := by
            rw [hlen] at h
            omega
          have hget : (s.trace ++ [(llm_query provider s.count p).2]).get ⟨j, h⟩
              = (llm_query provider s.count p).2 := by
            subst hje
            simp
          rw [hget]
          subst hje
          simp only [llm_query, LlmCallOk]
          by_cases hgt : s.count + 1 > 3
          · rw [if_pos hgt]
            constructor
            · intro hlt
              rw [hc] at hgt
              omega
            · intro _
              exact ⟨rfl, rfl⟩
          · rw [if_neg hgt]
            constructor
            · intro _
              exact ⟨rfl, rfl⟩
            · intro hge
              rw [hc] at hgt
              omega
    constructor
    · intro s2 h2
      simp only [stepStmt] at h2
      cases hev : evalExpr s.ns pe with
      | ok v =>
        simp only [hev] at h2
        cases v with
        | strV p =>
          injection h2 with h2
          rw [← h2]
          exact key p
        | intV n => cases h2
        | moduleV m => cases h2
        | builtinV b => cases h2
        | badRepr => cases h2
      | error msg =>
        simp only [hev] at h2
        cases h2
    · intro e2 he
      simp only [stepStmt] at he
      cases hev : evalExpr s.ns pe with
      | ok v =>
        simp only [hev] at he
        cases v with
        | strV p => cases he
        | intV n =>
          injection he with he
          rw [← he]
          exact hs
        | moduleV m =>
          injection he with he
          rw [← he]
          exact hs
        | builtinV b =>
          injection he with he
          rw [← he]
          exact hs
        | badRepr =>
          injection he with he
          rw [← he]
          exact hs
      | error msg =>
        simp only [hev] at he
        injection he with he
        rw [← he]
        exact hs

theorem runStmts_traceOk (provider : String → String) :
    ∀ (code : List Stmt) (s : ExecSt), TraceOk provider s →
      TraceOk provider (runStmts provider s code).1 := by
  intro code
  induction code with
  | nil => intro s hs; exact hs
  | cons stmt rest ih =>
    intro s hs
    unfold runStmts
    cases hstep : stepStmt provider s stmt with
    | ok s2 => exact ih s2 ((stepStmt_traceOk provider s stmt hs).1 s2 hstep)
    | error e => exact (stepStmt_traceOk provider s stmt hs).2 e hstep

theorem execute_llmTrace_cases (modules : String → Bool) (provider : String → String)
    (st : REPLState) (code : List Stmt) :
    ((execute modules provider st code).2).llmTrace = [] ∨
    ((execute modules provider st code).2).llmTrace
      = (runStmts provider
          { ns := dictMerge (runImports modules st.globals (code.filter isImport)).1 st.locals,
            count := 0, stdout := "", trace := [] }
          (code.filter (fun s => !isImport s))).1.trace := by
  unfold execute
  rcases hri : runImports modules st.globals (code.filter isImport) with ⟨g2, err⟩
  cases err with
  | some msg =>
    simp only [hri]
    left
    trivial
  | none =>
    simp only [hri]
    by_cases he : (code.filter (fun s => !isImport s)).isEmpty = true
    · rw [if_pos he]
      left
      trivial
    · rw [if_neg he]
      rcases hrs : runStmts provider
          { ns := dictMerge g2 st.locals, count := 0, stdout := "", trace := [] }
          (code.filter (fun s => !isImport s)) with ⟨s, err2⟩
      cases err2 with
      | some msg =>
        simp only [hrs]
        right
        trivial
      | none =>
        simp only [hrs]
        right
        trivial

theorem execute_trace_ok (modules : String → Bool) (provider : String → String)
    (st : REPLState) (code : List Stmt) :
    ∀ (j : Nat) (h : j < ((execute modules provider st code).2).llmTrace.length),
      LlmCallOk provider j (((execute modules provider st code).2).llmTrace.get ⟨j, h⟩) := by
  rcases execute_llmTrace_cases modules provider st code with h0 | heq
  · rw [h0]
    intro j h
    exact absurd h (by simp)
  · rw [heq]
    have hrun := runStmts_traceOk provider (code.filter (fun s => !isImport s))
      { ns := dictMerge (runImports modules st.globals (code.filter isImport)).1 st.locals,
        count := 0, stdout := "", trace := [] }
      ⟨rfl, fun j h => absurd h (by simp)⟩
    exact hrun.2

end ReplEnv

namespace MctsEngine

theorem pymaxAux_le {α : Type} (key : α → WithTop ℚ) (b : α) (l : List α) :
    ∀ y ∈ b :: l, key y ≤ key (pymaxAux key b l) := by
  induction l generalizing b with
  | nil =>
    intro y hy
    simp only [List.mem_singleton] at hy
    subst hy
    exact le_refl _
  | cons z zs ih =>
    intro y hy
    have hstep : pymaxAux key b (z :: zs) = pymaxAux key (if key b < key z then z else b) zs := rfl
    have hb : key b ≤ key (if key b < key z then z else b) := by
      split_ifs with h
      · exact le_of_lt h
      · exact le_refl _
    have hz : key z ≤ key (if key b < key z then z else b) := by
      split_ifs with h
      · exact le_refl _
      · exact le_of_not_lt h
    rw [hstep]
    rcases List.mem_cons.mp hy with rfl | hy2
    · exact le_trans hb (ih _ _ (List.mem_cons_self _ _))
    · rcases List.mem_cons.mp hy2 with rfl | hy3
      · exact le_trans hz (ih _ _ (List.mem_cons_self _ _))
      · exact ih _ y (List.mem_cons_of_mem _ hy3)

theorem pymaxAux_mem {α : Type} (key : α → WithTop ℚ) (b : α) (l : List α) :
    pymaxAux key b l ∈ b :: l := by
  induction l generalizing b with
  | nil => simp [pymaxAux]
  | cons z zs ih =>
    have hstep : pymaxAux key b (z :: zs) = pymaxAux key (if key b < key z then z else b) zs := rfl
    rw [hstep]
    have := ih (if key b < key z then z else b)
    rcases List.mem_cons.mp this with heq | hmem
    · rw [heq]
      split_ifs
      · exact List.mem_cons_of_mem _ (List.mem_cons_self _ _)
      · exact List.mem_cons_self _ _
    · exact List.mem_cons_of_mem _ (List.mem_cons_of_mem _ hmem)

theorem pymax_mem {α : Type} (key : α → WithTop ℚ) {l : List α} {m : α}
    (h : pymax key l = some m) : m ∈ l := by
  cases l with
  | nil => cases h
  | cons x xs =>
    have hx : some (pymaxAux key x xs) = some m := h
    rw [(Option.some_injective _ hx).symm]
    exact pymaxAux_mem key x xs

theorem pymax_top {α : Type} (key : α → WithTop ℚ) (l : List α) (c : α)
    (hc : c ∈ l) (htop : key c = ⊤) :
    ∃ m, pymax key l = some m ∧ key m = ⊤ ∧ m ∈ l := by
  cases l with
  | nil => cases hc
  | cons x xs =>
    refine ⟨pymaxAux key x xs, rfl, ?_, pymaxAux_mem key x xs⟩
    have hle := pymaxAux_le key x xs c hc
    rw [htop] at hle
    exact top_le_iff.mp hle

theorem selectLoop_step (logF sqrtF : ℚ → ℚ) (c : ℚ) (nodes : Nat → Option ReasoningNode)
    (cur fuel : Nat) :
    selectLoop logF sqrtF c nodes cur (fuel + 1) =
      match nodes cur with
      | none => cur
      | some node =>
          if node.children.isEmpty then cur
          else
            match pymax (childKey logF sqrtF c nodes (parent_visits_floor node)) node.children with
            | none => cur
            | some best => selectLoop logF sqrtF c nodes best fuel := by
  conv_lhs => rw [selectLoop]

theorem selectLoop_isSome (logF sqrtF : ℚ → ℚ) (c : ℚ) {nodes : Nat → Option ReasoningNode}
    (hW2 : ∀ id n, nodes id = some n → ∀ x ∈ n.children, (nodes x).isSome) :
    ∀ (fuel cur : Nat), (nodes cur).isSome →
      (nodes (selectLoop logF sqrtF c nodes cur fuel)).isSome := by
  intro fuel
  induction fuel with
  | zero => intro cur hcur; exact hcur
  | succ f ih =>
    intro cur hcur
    obtain ⟨node, hn⟩ := Option.isSome_iff_exists.mp hcur
    rw [selectLoop_step]
    simp only [hn]
    by_cases hce : node.children.isEmpty
    · simp only [if_pos hce]
      exact hcur
    · simp only [if_neg hce]
      cases hpm : pymax (childKey logF sqrtF c nodes (parent_visits_floor node)) node.children with
      | none => exact hcur
      | some best => exact ih best (hW2 cur node hn best (pymax_mem _ hpm))

theorem expandSeed_none {σ : Type} (replExec : σ → String → σ × ExecOutcome)
    (getVar : σ → String → Option String) {st : SearchState σ} {parentId : Nat} (seed : Seed)
    (h : st.nodes parentId = none) :
    expandSeed replExec getVar st parentId seed = (st, parentId) := by
  simp only [expandSeed, h]

theorem expandSeed_plain {σ : Type} (replExec : σ → String → σ × ExecOutcome)
    (getVar : σ → String → Option String) {st : SearchState σ} {parentId : Nat}
    {pn : ReasoningNode} (seed : Seed)
    (hpn : st.nodes parentId = some pn) (hcase : ¬(seed.node_type = "code" ∧ seed.code ≠ "")) :
    expandSeed replExec getVar st parentId seed =
      (registerChild { st with nextId := st.nextId + 1 } parentId pn st.nextId
        (seedBase st parentId pn seed), st.nextId) := by
  simp only [expandSeed, hpn, if_neg hcase]

theorem expandSeed_code_none {σ : Type} (replExec : σ → String → σ × ExecOutcome)
    (getVar : σ → String → Option String) {st : SearchState σ} {parentId : Nat}
    {pn : ReasoningNode} (seed : Seed)
    (hpn : st.nodes parentId = some pn) (hcase : seed.node_type = "code" ∧ seed.code ≠ "")
    (hfv : _check_final_var getVar (replExec st.repl seed.code).1
        (seedChild0 (seedBase st parentId pn seed) (replExec st.repl seed.code).2) = none) :
    expandSeed replExec getVar st parentId seed =
      (registerChild
        { st with repl := (replExec st.repl seed.code).1, nextId := st.nextId + 1 }
        parentId pn st.nextId
        (seedChild0 (seedBase st parentId pn seed) (replExec st.repl seed.code).2),
       st.nextId) := by
  simp only [expandSeed, hpn, if_pos hcase, hfv]

theorem expandSeed_code_ans {σ : Type} (replExec : σ → String → σ × ExecOutcome)
    (getVar : σ → String → Option String) {st : SearchState σ} {parentId : Nat}
    {pn : ReasoningNode} (seed : Seed) {ans : String}
    (hpn : st.nodes parentId = some pn) (hcase : seed.node_type = "code" ∧ seed.code ≠ "")
    (hfv : _check_final_var getVar (replExec st.repl seed.code).1
        (seedChild0 (seedBase st parentId pn seed) (replExec st.repl seed.code).2) = some ans) :
    expandSeed replExec getVar st parentId seed =
      (registerChild
        { st with
          repl := (replExec st.repl seed.code).1,
          nextId := st.nextId + 2,
          nodes := Function.update st.nodes (st.nextId + 1)
            (some (ansNodeOf st.nextId
              (seedChild0 (seedBase st parentId pn seed) (replExec st.repl seed.code).2).depth
              ans)) }
        parentId pn st.nextId
        { seedChild0 (seedBase st parentId pn seed) (replExec st.repl seed.code).2 with
          children := [st.nextId + 1] },
       st.nextId) := by
  simp only [expandSeed, hpn, if_pos hcase, hfv]

theorem registerChild_wf {σ : Type} {S st : SearchState σ} {parentId : Nat}
    {pn child : ReasoningNode}
    (hwf : WFT st) (hpn : st.nodes parentId = some pn)
    (hSn : S.nodes = st.nodes) (hSnext : S.nextId = st.nextId + 1)
    (hcp : child.parent_id = some parentId) (hcc : child.children = []) :
    WFT (registerChild S parentId pn st.nextId child) ∧
    (∀ i n, st.nodes i = some n → ∃ n2,
        (registerChild S parentId pn st.nextId child).nodes i = some n2 ∧
        n2.visits = n.visits ∧ n2.parent_id = n.parent_id) ∧
    (registerChild S parentId pn st.nextId child).nodes st.nextId = some child ∧
    (registerChild S parentId pn st.nextId child).nextId = st.nextId + 1 := by
  have hcore : WFcore (fun n => n.parent_id) (fun n => n.children) st.nodes st.nextId := hwf
  have h := @addNode_wfcore ReasoningNode (fun n => n.parent_id) (fun n => n.children)
    st.nodes st.nextId parentId pn { pn with children := pn.children ++ [st.nextId] } child
    hcore hpn rfl rfl hcp hcc
  have hnodes : (registerChild S parentId pn st.nextId child).nodes =
      Function.update (Function.update st.nodes parentId
        (some { pn with children := pn.children ++ [st.nextId] })) st.nextId (some child) := by
    simp only [registerChild]
    rw [hSn]
  have hnext : (registerChild S parentId pn st.nextId child).nextId = st.nextId + 1 := by
    simp only [registerChild]
    exact hSnext
  refine ⟨?_, ?_, ?_, hnext⟩
  · show WFcore (fun n => n.parent_id) (fun n => n.children)
      (registerChild S parentId pn st.nextId child).nodes
      (registerChild S parentId pn st.nextId child).nextId
    rw [hnodes, hnext]
    exact h.1
  · intro i n hn
    by_cases hip : i = parentId
    · subst hip
      have hpneq : pn = n := by
        rw [hpn] at hn
        exact Option.some_injective _ hn
      subst hpneq
      exact ⟨{ pn with children := pn.children ++ [st.nextId] },
        by rw [hnodes]; exact h.2.2.1, rfl, rfl⟩
    · exact ⟨n, by rw [hnodes]; exact h.2.1 i n hn hip, rfl, rfl⟩
  · rw [hnodes]
    exact h.2.2.2

theorem registerChild_wf_ans {σ : Type} {S st : SearchState σ} {parentId : Nat}
    {pn child0 : ReasoningNode} {ans : String}
    (hwf : WFT st) (hpn : st.nodes parentId = some pn)
    (hSn : S.nodes = Function.update st.nodes (st.nextId + 1)
        (some (ansNodeOf st.nextId child0.depth ans)))
    (hSnext : S.nextId = st.nextId + 2)
    (hcp : child0.parent_id = some parentId) (hcc : child0.children = []) :
    WFT (registerChild S parentId pn st.nextId { child0 with children := [st.nextId + 1] }) ∧
    (∀ i n, st.nodes i = some n → ∃ n2,
        (registerChild S parentId pn st.nextId
          { child0 with children := [st.nextId + 1] }).nodes i = some n2 ∧
        n2.visits = n.visits ∧ n2.parent_id = n.parent_id) ∧
    ((registerChild S parentId pn st.nextId
        { child0 with children := [st.nextId + 1] }).nodes st.nextId).isSome ∧
    (registerChild S parentId pn st.nextId
        { child0 with children := [st.nextId + 1] }).nextId = st.nextId + 2 := by
  have hcore : WFcore (fun n => n.parent_id) (fun n => n.children) st.nodes st.nextId := hwf
  have hpid_lt : parentId < st.nextId := by
    by_contra hge
    rw [hcore.1 parentId (le_of_not_lt hge)] at hpn
    cases hpn
  have h1 := @addNode_wfcore ReasoningNode (fun n => n.parent_id) (fun n => n.children)
    st.nodes st.nextId parentId pn { pn with children := pn.children ++ [st.nextId] } child0
    hcore hpn rfl rfl hcp hcc
  set M1 := Function.update (Function.update st.nodes parentId
    (some { pn with children := pn.children ++ [st.nextId] })) st.nextId (some child0) with hM1
  have h2 := @addNode_wfcore ReasoningNode (fun n => n.parent_id) (fun n => n.children)
    M1 (st.nextId + 1) st.nextId child0
    { child0 with children := child0.children ++ [st.nextId + 1] }
    (ansNodeOf st.nextId child0.depth ans)
    h1.1 h1.2.2.2 rfl rfl rfl rfl
  set M2 := Function.update (Function.update M1 st.nextId
    (some { child0 with children := child0.children ++ [st.nextId + 1] }))
    (st.nextId + 1) (some (ansNodeOf st.nextId child0.depth ans)) with hM2
  have hC : ({ child0 with children := child0.children ++ [st.nextId + 1] } : ReasoningNode)
      = { child0 with children := [st.nextId + 1] } := by
    rw [hcc]
    rfl
  have hnodes : (registerChild S parentId pn st.nextId
      { child0 with children := [st.nextId + 1] }).nodes = M2 := by
    simp only [registerChild]
    rw [hSn, hM2, hM1]
    funext i
    simp only [Function.update_apply]
    split_ifs <;> first | rfl | (rw [hC]) | omega
  have hnext : (registerChild S parentId pn st.nextId
      { child0 with children := [st.nextId + 1] }).nextId = st.nextId + 2 := by
    simp only [registerChild]
    exact hSnext
  refine ⟨?_, ?_, ?_, hnext⟩
  · show WFcore (fun n => n.parent_id) (fun n => n.children)
      (registerChild S parentId pn st.nextId { child0 with children := [st.nextId + 1] }).nodes
      (registerChild S parentId pn st.nextId { child0 with children := [st.nextId + 1] }).nextId
    rw [hnodes, hnext]
    exact h2.1
  · intro i n hn
    have hi_lt : i < st.nextId := by
      by_contra hge
      rw [hcore.1 i (le_of_not_lt hge)] at hn
      cases hn
    by_cases hip : i = parentId
    · subst hip
      have hpneq : pn = n := by
        rw [hpn] at hn
        exact Option.some_injective _ hn
      subst hpneq
      refine ⟨{ pn with children := pn.children ++ [st.nextId] }, ?_, rfl, rfl⟩
      rw [hnodes]
      exact h2.2.1 i _ h1.2.2.1 (by omega)
    · refine ⟨n, ?_, rfl, rfl⟩
      rw [hnodes]
      exact h2.2.1 i n (h1.2.1 i n hn hip) (by omega)
  · rw [hnodes, h2.2.2.1]
    simp

theorem expandSeed_wf {σ : Type} (replExec : σ → String → σ × ExecOutcome)
    (getVar : σ → String → Option String) {st : SearchState σ} {parentId : Nat}
    {pn : ReasoningNode} (seed : Seed)
    (hwf : WFT st) (hpn : st.nodes parentId = some pn) :
    WFT (expandSeed replExec getVar st parentId seed).1 ∧
    (∀ i n, st.nodes i = some n → ∃ n2,
        (expandSeed replExec getVar st parentId seed).1.nodes i = some n2 ∧
        n2.visits = n.visits ∧ n2.parent_id = n.parent_id) ∧
    ((expandSeed replExec getVar st parentId seed).1.nodes
        (expandSeed replExec getVar st parentId seed).2).isSome := by
  by_cases hcase : seed.node_type = "code" ∧ seed.code ≠ ""
  · cases hfv : _check_final_var getVar (replExec st.repl seed.code).1
        (seedChild0 (seedBase st parentId pn seed) (replExec st.repl seed.code).2) with
    | none =>
      rw [expandSeed_code_none replExec getVar seed hpn hcase hfv]
      have h := @registerChild_wf σ
        { st with repl := (replExec st.repl seed.code).1, nextId := st.nextId + 1 }
        st parentId pn
        (seedChild0 (seedBase st parentId pn seed) (replExec st.repl seed.code).2)
        hwf hpn rfl rfl rfl rfl
      exact ⟨h.1, h.2.1, by rw [h.2.2.1]; simp⟩
    | some ans =>
      rw [expandSeed_code_ans replExec getVar seed hpn hcase hfv]
      have h := @registerChild_wf_ans σ
        { st with
          repl := (replExec st.repl seed.code).1,
          nextId := st.nextId + 2,
          nodes := Function.update st.nodes (st.nextId + 1)
            (some (ansNodeOf st.nextId
              (seedChild0 (seedBase st parentId pn seed) (replExec st.repl seed.code).2).depth
              ans)) }
        st parentId pn
        (seedChild0 (seedBase st parentId pn seed) (replExec st.repl seed.code).2)
        ans hwf hpn rfl rfl rfl rfl
      exact ⟨h.1, h.2.1, h.2.2.1⟩
  · rw [expandSeed_plain replExec getVar seed hpn hcase]
    have h := @registerChild_wf σ { st with nextId := st.nextId + 1 }
      st parentId pn (seedBase st parentId pn seed) hwf hpn rfl rfl rfl rfl
    exact ⟨h.1, h.2.1, by rw [h.2.2.1]; simp⟩

theorem expandAll_nil {σ : Type} (replExec : σ → String → σ × ExecOutcome)
    (getVar : σ → String → Option String) (st : SearchState σ) (parentId : Nat) :
    expandAll replExec getVar st parentId [] = (st, []) := rfl

theorem expandAll_cons {σ : Type} (replExec : σ → String → σ × ExecOutcome)
    (getVar : σ → String → Option String) (st : SearchState σ) (parentId : Nat)
    (seed : Seed) (rest : List Seed) :
    expandAll replExec getVar st parentId (seed :: rest) =
      ((expandAll replExec getVar (expandSeed replExec getVar st parentId seed).1
          parentId rest).1,
       (expandSeed replExec getVar st parentId seed).2 ::
       (expandAll replExec getVar (expandSeed replExec getVar st parentId seed).1
          parentId rest).2) := rfl

theorem expandAll_wf {σ : Type} (replExec : σ → String → σ × ExecOutcome)
    (getVar : σ → String → Option String) (parentId : Nat) :
    ∀ (seeds : List Seed) {st : SearchState σ} {pn : ReasoningNode},
      WFT st → st.nodes parentId = some pn →
      WFT (expandAll replExec getVar st parentId seeds).1 ∧
      (∀ i n, st.nodes i = some n → ∃ n2,
          (expandAll replExec getVar st parentId seeds).1.nodes i = some n2 ∧
          n2.visits = n.visits ∧ n2.parent_id = n.parent_id) ∧
      (∀ x ∈ (expandAll replExec getVar st parentId seeds).2,
          ((expandAll replExec getVar st parentId seeds).1.nodes x).isSome) := by
  intro seeds
  induction seeds with
  | nil =>
    intro st pn hwf hpn
    rw [expandAll_nil]
    exact ⟨hwf, fun i n hn => ⟨n, hn, rfl, rfl⟩, by simp⟩
  | cons seed rest ih =>
    intro st pn hwf hpn
    have hseed := expandSeed_wf replExec getVar seed hwf hpn
    obtain ⟨pn2, hpn2, _, _⟩ := hseed.2.1 parentId pn hpn
    have hrest := ih hseed.1 hpn2
    rw [expandAll_cons]
    refine ⟨hrest.1, ?_, ?_⟩
    · intro i n hn
      obtain ⟨n2, hn2, hv2, hp2⟩ := hseed.2.1 i n hn
      obtain ⟨n3, hn3, hv3, hp3⟩ := hrest.2.1 i n2 hn2
      exact ⟨n3, hn3, by rw [hv3, hv2], by rw [hp3, hp2]⟩
    · intro x hx
      rcases List.mem_cons.mp hx with rfl | hx2
      · obtain ⟨n2, hn2⟩ := Option.isSome_iff_exists.mp hseed.2.2
        obtain ⟨n3, hn3, _, _⟩ := hrest.2.1 _ n2 hn2
        rw [hn3]
        simp
      · exact hrest.2.2 x hx2

theorem rootVisits_eq {σ : Type} {st : SearchState σ} {n : ReasoningNode}
    (h : st.nodes 0 = some n) : rootVisits st = n.visits := by
  simp only [rootVisits, h]

theorem bpStage {σ : Type} {st2 : SearchState σ} {leaf2 : Nat} (value : ℚ)
    (hwf : WFT st2) (hl : (st2.nodes leaf2).isSome) :
    WFT { st2 with nodes := _backpropagate st2.nodes leaf2 value st2.nextId } ∧
    rootVisits { st2 with nodes := _backpropagate st2.nodes leaf2 value st2.nextId } =
      rootVisits st2 + 1 := by
  have hcore : WFcore (fun n => n.parent_id) (fun n => n.children) st2.nodes st2.nextId := hwf
  have h := @backprop_wfcore ReasoningNode (fun n => n.parent_id) (fun n => n.children)
    (bumpValue value) st2.nodes st2.nextId leaf2 (fun _ => rfl) (fun _ => rfl) hcore hl
  constructor
  · show WFcore (fun n => n.parent_id) (fun n => n.children)
      (_backpropagate st2.nodes leaf2 value st2.nextId) st2.nextId
    exact h.1
  · obtain ⟨rn, hrn, hb⟩ := h.2.2
    have h1 : rootVisits { st2 with nodes := _backpropagate st2.nodes leaf2 value st2.nextId }
        = (bumpValue value rn).visits := by
      apply rootVisits_eq
      exact hb
    rw [h1, rootVisits_eq hrn]
    rfl

theorem searchIteration_wf {σ : Type} (logF sqrtF : ℚ → ℚ) (c : ℚ) (maxDepth : Nat)
    (policy : SearchState σ → Nat → List Seed)
    (replExec : σ → String → σ × ExecOutcome)
    (getVar : σ → String → Option String)
    (valueFn : SearchState σ → Nat → ℚ)
    {st : SearchState σ} (hwf : WFT st) :
    WFT (searchIteration logF sqrtF c maxDepth policy replExec getVar valueFn st) ∧
    rootVisits (searchIteration logF sqrtF c maxDepth policy replExec getVar valueFn st) =
      rootVisits st + 1 := by
  have hcore : WFcore (fun n => n.parent_id) (fun n => n.children) st.nodes st.nextId := hwf
  obtain ⟨hW0, ⟨rn, hrn, hparn⟩, hW2, hW3⟩ := hcore
  have hleafS := selectLoop_isSome logF sqrtF c hW2 st.nextId 0 (by rw [hrn]; simp)
  have key : ∃ st2 leaf2, searchIteration logF sqrtF c maxDepth policy replExec getVar valueFn st
      = { st2 with nodes := _backpropagate st2.nodes leaf2 (valueFn st2 leaf2) st2.nextId } ∧
      WFT st2 ∧ (st2.nodes leaf2).isSome ∧ rootVisits st2 = rootVisits st := by
    obtain ⟨ln, hln⟩ := Option.isSome_iff_exists.mp hleafS
    by_cases hcond : ln.depth < maxDepth ∧ ln.children.isEmpty
    · have hexp := expandAll_wf replExec getVar
        (selectLoop logF sqrtF c st.nodes 0 st.nextId)
        (policy st (selectLoop logF sqrtF c st.nodes 0 st.nextId)) hwf hln
      cases hr2 : (expandAll replExec getVar st (selectLoop logF sqrtF c st.nodes 0 st.nextId)
          (policy st (selectLoop logF sqrtF c st.nodes 0 st.nextId))).2 with
      | nil =>
        refine ⟨(expandAll replExec getVar st (selectLoop logF sqrtF c st.nodes 0 st.nextId)
            (policy st (selectLoop logF sqrtF c st.nodes 0 st.nextId))).1,
          selectLoop logF sqrtF c st.nodes 0 st.nextId, ?_, hexp.1, ?_, ?_⟩
        · simp only [searchIteration, hln, if_pos hcond, hr2]
        · obtain ⟨n2, hn2, _, _⟩ := hexp.2.1 _ ln hln
          rw [hn2]
          simp
        · obtain ⟨rn2, h0, hv, _⟩ := hexp.2.1 0 rn hrn
          rw [rootVisits_eq h0, rootVisits_eq hrn, hv]
      | cons c0 tl =>
        refine ⟨(expandAll replExec getVar st (selectLoop logF sqrtF c st.nodes 0 st.nextId)
            (policy st (selectLoop logF sqrtF c st.nodes 0 st.nextId))).1, c0, ?_, hexp.1, ?_, ?_⟩
        · simp only [searchIteration, hln, if_pos hcond, hr2]
        · exact hexp.2.2 c0 (by rw [hr2]; exact List.mem_cons_self _ _)
        · obtain ⟨rn2, h0, hv, _⟩ := hexp.2.1 0 rn hrn
          rw [rootVisits_eq h0, rootVisits_eq hrn, hv]
    · refine ⟨st, selectLoop logF sqrtF c st.nodes 0 st.nextId, ?_, hwf,
        (by rw [hln]; simp), rfl⟩
      simp only [searchIteration, hln, if_neg hcond]
  obtain ⟨st2, leaf2, heq, hwf2, hl2, hrv⟩ := key
  rw [heq]
  have h := bpStage (valueFn st2 leaf2) hwf2 hl2
  exact ⟨h.1, by rw [h.2, hrv]⟩

theorem searchInit_wf {σ : Type} (q : String) (repl : σ) :
    WFT (searchInit q repl) ∧ rootVisits (searchInit q repl) = 0 := by
  have hnodes : (searchInit q repl).nodes = Function.update (fun _ => none) 0 (some
      { id := 0, content := q, node_type := "question", parent_id := none, children := [],
        visits := 0, total_value := 0, depth := 0, code := "", repl_stdout := "",
        repl_stderr := "", repl_vars := [] }) := rfl
  have hnext : (searchInit q repl).nextId = 1 := rfl
  have hroot : (searchInit q repl).nodes 0 = some
      { id := 0, content := q, node_type := "question", parent_id := none, children := [],
        visits := 0, total_value := 0, depth := 0, code := "", repl_stdout := "",
        repl_stderr := "", repl_vars := [] } := by
    rw [hnodes]
    exact Function.update_same _ _ _
  have hmiss : ∀ id : Nat, id ≠ 0 → (searchInit q repl).nodes id = none := by
    intro id h0
    rw [hnodes]
    exact Function.update_noteq h0 _ _
  constructor
  · show WFcore (fun n => n.parent_id) (fun n => n.children)
      (searchInit q repl).nodes (searchInit q repl).nextId
    refine ⟨?_, ⟨_, hroot, rfl⟩, ?_, ?_⟩
    · intro id hid
      rw [hnext] at hid
      exact hmiss id (by omega)
    · intro id n hn c hc
      by_cases h0 : id = 0
      · subst h0
        rw [hroot] at hn
        have hne := Option.some_injective _ hn
        rw [← hne] at hc
        simp at hc
      · rw [hmiss id h0] at hn
        cases hn
    · intro id hid
      by_cases h0 : id = 0
      · subst h0
        refine ⟨[0], 1, ?_, by simp, ?_, rfl⟩
        · rw [parentPath_step (fun n => n.parent_id) 0 hroot]
        · intro x hx
          simp only [List.mem_singleton] at hx
          subst hx
          rw [hnext]
          omega
      · rw [hmiss id h0] at hid
        simp at hid
  · rw [rootVisits_eq hroot]

theorem searchLoop_succ {σ : Type} (logF sqrtF : ℚ → ℚ) (c : ℚ) (maxDepth : Nat)
    (policy : SearchState σ → Nat → List Seed)
    (replExec : σ → String → σ × ExecOutcome)
    (getVar : σ → String → Option String)
    (valueFn : SearchState σ → Nat → ℚ) (k : Nat) (st : SearchState σ) :
    searchLoop logF sqrtF c maxDepth policy replExec getVar valueFn (k + 1) st =
      searchLoop logF sqrtF c maxDepth policy replExec getVar valueFn k
        (searchIteration logF sqrtF c maxDepth policy replExec getVar valueFn st) := rfl

theorem searchLoop_wf {σ : Type} (logF sqrtF : ℚ → ℚ) (c : ℚ) (maxDepth : Nat)
    (policy : SearchState σ → Nat → List Seed)
    (replExec : σ → String → σ × ExecOutcome)
    (getVar : σ → String → Option String)
    (valueFn : SearchState σ → Nat → ℚ) :
    ∀ (k : Nat) {st : SearchState σ}, WFT st →
      WFT (searchLoop logF sqrtF c maxDepth policy replExec getVar valueFn k st) ∧
      rootVisits (searchLoop logF sqrtF c maxDepth policy replExec getVar valueFn k st) =
        rootVisits st + k := by
  intro k
  induction k with
  | zero => intro st hwf; exact ⟨hwf, rfl⟩
  | succ n ih =>
    intro st hwf
    have hit := searchIteration_wf logF sqrtF c maxDepth policy replExec getVar valueFn hwf
    have hrec := ih hit.1
    rw [searchLoop_succ]
    refine ⟨hrec.1, ?_⟩
    rw [hrec.2, hit.2]
    omega

end MctsEngine

namespace RubricEngine

theorem rootVisitsR_eq {st : RubricState} {n : RubricNode}
    (h : st.nodes 0 = some n) : rootVisitsR st = n.visits := by
  simp only [rootVisitsR, h]

theorem create_eq (sqrtF : ℚ → ℚ) (execO : String → ExecRubricResult)
    {st : RubricState} {parentId : Nat} {pn : RubricNode} (code nt : String)
    (hpn : st.nodes parentId = some pn) :
    create_and_evaluate sqrtF execO st parentId code nt =
      ({ st with
          nodes := Function.update (Function.update st.nodes parentId
            (some { pn with children_ids := pn.children_ids ++ [st.nextId] }))
            st.nextId (some (rubricChild sqrtF execO st.nextId parentId pn code nt)),
          nextId := st.nextId + 1 }, st.nextId) := by
  simp only [create_and_evaluate, hpn]

theorem create_wf (sqrtF : ℚ → ℚ) (execO : String → ExecRubricResult)
    {st : RubricState} {parentId : Nat} {pn : RubricNode} (code nt : String)
    (hwf : WFR st) (hpn : st.nodes parentId = some pn) :
    WFR (create_and_evaluate sqrtF execO st parentId code nt).1 ∧
    (∀ i n, st.nodes i = some n → ∃ n2,
        (create_and_evaluate sqrtF execO st parentId code nt).1.nodes i = some n2 ∧
        n2.visits = n.visits ∧ n2.parent_id = n.parent_id) ∧
    ((create_and_evaluate sqrtF execO st parentId code nt).1.nodes
        (create_and_evaluate sqrtF execO st parentId code nt).2).isSome ∧
    (create_and_evaluate sqrtF execO st parentId code nt).1.nextId = st.nextId + 1 := by
  have hcore : WFcore (fun n => n.parent_id) (fun n => n.children_ids) st.nodes st.nextId := hwf
  have h := @addNode_wfcore RubricNode (fun n => n.parent_id) (fun n => n.children_ids)
    st.nodes st.nextId parentId pn { pn with children_ids := pn.children_ids ++ [st.nextId] }
    (rubricChild sqrtF execO st.nextId parentId pn code nt)
    hcore hpn rfl rfl rfl rfl
  rw [create_eq sqrtF execO code nt hpn]
  refine ⟨?_, ?_, ?_, rfl⟩
  · exact h.1
  · intro i n hn
    by_cases hip : i = parentId
    · subst hip
      have hpneq : pn = n := by
        rw [hpn] at hn
        exact Option.some_injective _ hn
      subst hpneq
      exact ⟨{ pn with children_ids := pn.children_ids ++ [st.nextId] }, h.2.2.1, rfl, rfl⟩
    · exact ⟨n, h.2.1 i n hn hip, rfl, rfl⟩
  · exact Option.isSome_iff_exists.mpr ⟨_, h.2.2.2⟩

theorem foldl_create_wf (sqrtF : ℚ → ℚ) (execO : String → ExecRubricResult)
    (nodeId : Nat) (nt : String) :
    ∀ (codes : List String) {st : RubricState} {acc : List Nat} {pn : RubricNode},
      WFR st → st.nodes nodeId = some pn → (∀ x ∈ acc, (st.nodes x).isSome) →
      WFR (codes.foldl (createStep sqrtF execO nodeId nt) (st, acc)).1 ∧
      (∀ i n, st.nodes i = some n → ∃ n2,
          (codes.foldl (createStep sqrtF execO nodeId nt) (st, acc)).1.nodes i = some n2 ∧
          n2.visits = n.visits ∧ n2.parent_id = n.parent_id) ∧
      (∀ x ∈ (codes.foldl (createStep sqrtF execO nodeId nt) (st, acc)).2,
          ((codes.foldl (createStep sqrtF execO nodeId nt) (st, acc)).1.nodes x).isSome) ∧
      (codes.foldl (createStep sqrtF execO nodeId nt) (st, acc)).1.nextId
        = st.nextId + codes.length ∧
      (codes.foldl (createStep sqrtF execO nodeId nt) (st, acc)).2.length
        = acc.length + codes.length := by
  intro codes
  induction codes with
  | nil =>
    intro st acc pn hwf hpn hacc
    simp only [List.foldl_nil]
    exact ⟨hwf, fun i n h => ⟨n, h, rfl, rfl⟩, hacc, rfl, rfl⟩
  | cons code rest ih =>
    intro st acc pn hwf hpn hacc
    simp only [List.foldl_cons]
    have hcw := create_wf sqrtF execO code nt hwf hpn
    have hstep : createStep sqrtF execO nodeId nt (st, acc) code =
        ((create_and_evaluate sqrtF execO st nodeId code nt).1,
         acc ++ [(create_and_evaluate sqrtF execO st nodeId code nt).2]) := rfl
    rw [hstep]
    obtain ⟨pn2, hpn2, _, _⟩ := hcw.2.1 nodeId pn hpn
    have hacc2 : ∀ x ∈ acc ++ [(create_and_evaluate sqrtF execO st nodeId code nt).2],
        ((create_and_evaluate sqrtF execO st nodeId code nt).1.nodes x).isSome := by
      intro x hx
      rcases List.mem_append.mp hx with hxa | hxn
      · obtain ⟨m, hm⟩ := Option.isSome_iff_exists.mp (hacc x hxa)
        obtain ⟨m2, hm2, _, _⟩ := hcw.2.1 x m hm
        rw [hm2]
        simp
      · simp only [List.mem_singleton] at hxn
        subst hxn
        exact hcw.2.2.1
    have hrec := ih hcw.1 hpn2 hacc2
    refine ⟨hrec.1, ?_, hrec.2.2.1, ?_, ?_⟩
    · intro i n hn
      obtain ⟨n2, hn2, hv2, hp2⟩ := hcw.2.1 i n hn
      obtain ⟨n3, hn3, hv3, hp3⟩ := hrec.2.1 i n2 hn2
      exact ⟨n3, hn3, by rw [hv3, hv2], by rw [hp3, hp2]⟩
    · rw [hrec.2.2.2.1, hcw.2.2.2]
      simp only [List.length_cons]
      omega
    · rw [hrec.2.2.2.2]
      simp only [List.length_append, List.length_cons, List.length_nil]
      omega

theorem expandNode_none (sqrtF : ℚ → ℚ) (execO : String → ExecRubricResult)
    (policyRoot : RubricState → List String)
    (policyRefine : RubricState → Nat → List String)
    {st : RubricState} {nodeId : Nat} (h : st.nodes nodeId = none) :
    expandNode sqrtF execO policyRoot policyRefine st nodeId = (st, []) := by
  simp only [expandNode, h]

theorem expandNode_some (sqrtF : ℚ → ℚ) (execO : String → ExecRubricResult)
    (policyRoot : RubricState → List String)
    (policyRefine : RubricState → Nat → List String)
    {st : RubricState} {nodeId : Nat} {node : RubricNode} (hn : st.nodes nodeId = some node) :
    expandNode sqrtF execO policyRoot policyRefine st nodeId =
      (if node.node_type = "root" ∧ node.children_ids.isEmpty then policyRoot st
       else policyRefine st nodeId).foldl
        (createStep sqrtF execO nodeId
          (if node.node_type = "root" then "hypothesis" else "refinement"))
        (st, []) := by
  simp only [expandNode, hn]

theorem expandNode_wf (sqrtF : ℚ → ℚ) (execO : String → ExecRubricResult)
    (policyRoot : RubricState → List String)
    (policyRefine : RubricState → Nat → List String)
    (nodeId : Nat) {st : RubricState} (hwf : WFR st) :
    WFR (expandNode sqrtF execO policyRoot policyRefine st nodeId).1 ∧
    (∀ i n, st.nodes i = some n → ∃ n2,
        (expandNode sqrtF execO policyRoot policyRefine st nodeId).1.nodes i = some n2 ∧
        n2.visits = n.visits ∧ n2.parent_id = n.parent_id) ∧
    (∀ x ∈ (expandNode sqrtF execO policyRoot policyRefine st nodeId).2,
        ((expandNode sqrtF execO policyRoot policyRefine st nodeId).1.nodes x).isSome) ∧
    (expandNode sqrtF execO policyRoot policyRefine st nodeId).1.nextId
      = st.nextId + (expandNode sqrtF execO policyRoot policyRefine st nodeId).2.length := by
  cases hn : st.nodes nodeId with
  | none =>
    rw [expandNode_none sqrtF execO policyRoot policyRefine hn]
    exact ⟨hwf, fun i n h => ⟨n, h, rfl, rfl⟩, by simp, rfl⟩
  | some node =>
    rw [expandNode_some sqrtF execO policyRoot policyRefine hn]
    have h := foldl_create_wf sqrtF execO nodeId
      (if node.node_type = "root" then "hypothesis" else "refinement")
      (if node.node_type = "root" ∧ node.children_ids.isEmpty then policyRoot st
       else policyRefine st nodeId) hwf hn (by intro x hx; exact absurd hx (List.not_mem_nil x))
    refine ⟨h.1, h.2.1, h.2.2.1, ?_⟩
    rw [h.2.2.2.1, h.2.2.2.2]
    simp only [List.length_nil]
    omega

theorem processChildren_nil (st : RubricState) : processChildren st [] = st := rfl

theorem processChildren_cons (st : RubricState) (cid : Nat) (rest : List Nat) :
    processChildren st (cid :: rest) =
      processChildren
        (match st.nodes cid with
         | none => st
         | some child =>
             { st with nodes := _backpropagate st.nodes cid child.reward_composite st.nextId,
                       bestId := bestOf st cid child })
        rest := by
  conv_lhs => rw [processChildren]

theorem bpStageR (value : ℚ) (b : Option Nat) {st : RubricState} {cid : Nat}
    (hwf : WFR st) (hc : (st.nodes cid).isSome) :
    WFR { st with nodes := _backpropagate st.nodes cid value st.nextId, bestId := b } ∧
    rootVisitsR { st with nodes := _backpropagate st.nodes cid value st.nextId, bestId := b }
      = rootVisitsR st + 1 ∧
    (∀ i, (st.nodes i).isSome ↔
      (({ st with nodes := _backpropagate st.nodes cid value st.nextId, bestId := b } : RubricState).nodes i).isSome) := by
  have hcore : WFcore (fun n => n.parent_id) (fun n => n.children_ids) st.nodes st.nextId := hwf
  have h := @backprop_wfcore RubricNode (fun n => n.parent_id) (fun n => n.children_ids)
    (bumpReward value) st.nodes st.nextId cid (fun _ => rfl) (fun _ => rfl) hcore hc
  refine ⟨?_, ?_, h.2.1⟩
  · show WFcore (fun n => n.parent_id) (fun n => n.children_ids)
      (_backpropagate st.nodes cid value st.nextId) st.nextId
    exact h.1
  · obtain ⟨rn, hrn, hb⟩ := h.2.2
    have hb2 : (({ st with nodes := _backpropagate st.nodes cid value st.nextId, bestId := b } : RubricState)).nodes 0 = some (bumpReward value rn) := hb
    rw [rootVisitsR_eq hb2, rootVisitsR_eq hrn]
    rfl

theorem processChildren_wf :
    ∀ (cids : List Nat) {st : RubricState}, WFR st →
      (∀ x ∈ cids, (st.nodes x).isSome) →
      WFR (processChildren st cids) ∧
      rootVisitsR (processChildren st cids) = rootVisitsR st + cids.length ∧
      (processChildren st cids).nextId = st.nextId := by
  intro cids
  induction cids with
  | nil =>
    intro st hwf _
    rw [processChildren_nil]
    exact ⟨hwf, rfl, rfl⟩
  | cons cid rest ih =>
    intro st hwf hpres
    obtain ⟨child, hc⟩ := Option.isSome_iff_exists.mp (hpres cid (List.mem_cons_self _ _))
    rw [processChildren_cons]
    simp only [hc]
    have hstage := bpStageR child.reward_composite (bestOf st cid child) hwf (by rw [hc]; simp)
    have hrec := ih hstage.1 (fun x hx =>
      (hstage.2.2 x).mp (hpres x (List.mem_cons_of_mem _ hx)))
    refine ⟨hrec.1, ?_, ?_⟩
    · rw [hrec.2.1, hstage.2.1]
      simp only [List.length_cons]
      omega
    · rw [hrec.2.2]

theorem runIteration_inv (logF sqrtF : ℚ → ℚ) (expl : ℚ) (maxDepth : Nat)
    (execO : String → ExecRubricResult)
    (policyRoot : RubricState → List String)
    (policyRefine : RubricState → Nat → List String)
    {st : RubricState} (hwf : WFR st) (hinv : rootVisitsR st + 1 = st.nextId) :
    WFR (runIteration logF sqrtF expl maxDepth execO policyRoot policyRefine st) ∧
    rootVisitsR (runIteration logF sqrtF expl maxDepth execO policyRoot policyRefine st) + 1 =
      (runIteration logF sqrtF expl maxDepth execO policyRoot policyRefine st).nextId := by
  have hcore : WFcore (fun n => n.parent_id) (fun n => n.children_ids) st.nodes st.nextId := hwf
  obtain ⟨hW0, ⟨rn, hrn, hparn⟩, hW2, hW3⟩ := hcore
  have hexp := expandNode_wf sqrtF execO policyRoot policyRefine
    (selectLoop logF sqrtF expl st.nodes maxDepth 0 st.nextId) hwf
  have hpc := processChildren_wf
    (expandNode sqrtF execO policyRoot policyRefine st
      (selectLoop logF sqrtF expl st.nodes maxDepth 0 st.nextId)).2
    hexp.1 hexp.2.2.1
  obtain ⟨rn2, h0, hv, _⟩ := hexp.2.1 0 rn hrn
  have hrv : rootVisitsR (expandNode sqrtF execO policyRoot policyRefine st
      (selectLoop logF sqrtF expl st.nodes maxDepth 0 st.nextId)).1 = rootVisitsR st := by
    rw [rootVisitsR_eq h0, rootVisitsR_eq hrn, hv]
  have hEq : runIteration logF sqrtF expl maxDepth execO policyRoot policyRefine st =
      processChildren
        (expandNode sqrtF execO policyRoot policyRefine st
          (selectLoop logF sqrtF expl st.nodes maxDepth 0 st.nextId)).1
        (expandNode sqrtF execO policyRoot policyRefine st
          (selectLoop logF sqrtF expl st.nodes maxDepth 0 st.nextId)).2 := rfl
  rw [hEq]
  refine ⟨hpc.1, ?_⟩
  rw [hpc.2.1, hpc.2.2, hrv, hexp.2.2.2]
  omega

theorem runInit_wf : WFR runInit ∧ rootVisitsR runInit = 0 := by
  have hnodes : runInit.nodes = Function.update (fun _ => none) 0 (some
      { id := 0, rubric_code := "", node_type := "root", depth := 0,
        visits := 0, reward_generalization := 0, reward_calibration := 0,
        reward_discrimination := 0, reward_validity := 0,
        reward_iteration := 0, reward_composite := 0,
        train_results := [], eval_results := [], train_mae := 1,
        eval_mae := 1, stdout := "", stderr := "",
        execution_success := false, parent_id := none,
        children_ids := [], total_reward := 0 }) := rfl
  have hnext : runInit.nextId = 1 := rfl
  have hroot : runInit.nodes 0 = some
      { id := 0, rubric_code := "", node_type := "root", depth := 0,
        visits := 0, reward_generalization := 0, reward_calibration := 0,
        reward_discrimination := 0, reward_validity := 0,
        reward_iteration := 0, reward_composite := 0,
        train_results := [], eval_results := [], train_mae := 1,
        eval_mae := 1, stdout := "", stderr := "",
        execution_success := false, parent_id := none,
        children_ids := [], total_reward := 0 } := by
    rw [hnodes]
    exact Function.update_same _ _ _
  have hmiss : ∀ id : Nat, id ≠ 0 → runInit.nodes id = none := by
    intro id h0
    rw [hnodes]
    exact Function.update_noteq h0 _ _
  constructor
  · show WFcore (fun n => n.parent_id) (fun n => n.children_ids) runInit.nodes runInit.nextId
    refine ⟨?_, ⟨_, hroot, rfl⟩, ?_, ?_⟩
    · intro id hid
      rw [hnext] at hid
      exact hmiss id (by omega)
    · intro id n hn c hc
      by_cases h0 : id = 0
      · subst h0
        rw [hroot] at hn
        have hne := Option.some_injective _ hn
        rw [← hne] at hc
        simp at hc
      · rw [hmiss id h0] at hn
        cases hn
    · intro id hid
      by_cases h0 : id = 0
      · subst h0
        refine ⟨[0], 1, ?_, by simp, ?_, rfl⟩
        · rw [parentPath_step (fun n => n.parent_id) 0 hroot]
        · intro x hx
          simp only [List.mem_singleton] at hx
          subst hx
          rw [hnext]
          omega
      · rw [hmiss id h0] at hid
        simp at hid
  · rw [rootVisitsR_eq hroot]

theorem runLoop_succ (logF sqrtF : ℚ → ℚ) (expl : ℚ) (maxDepth : Nat)
    (execO : String → ExecRubricResult)
    (policyRoot : RubricState → List String)
    (policyRefine : RubricState → Nat → List String) (k : Nat) (st : RubricState) :
    runLoop logF sqrtF expl maxDepth execO policyRoot policyRefine (k + 1) st =
      runLoop logF sqrtF expl maxDepth execO policyRoot policyRefine k
        (runIteration logF sqrtF expl maxDepth execO policyRoot policyRefine st) := rfl

theorem runLoop_inv (logF sqrtF : ℚ → ℚ) (expl : ℚ) (maxDepth : Nat)
    (execO : String → ExecRubricResult)
    (policyRoot : RubricState → List String)
    (policyRefine : RubricState → Nat → List String) :
    ∀ (k : Nat) {st : RubricState}, WFR st → rootVisitsR st + 1 = st.nextId →
      WFR (runLoop logF sqrtF expl maxDepth execO policyRoot policyRefine k st) ∧
      rootVisitsR (runLoop logF sqrtF expl maxDepth execO policyRoot policyRefine k st) + 1 =
        (runLoop logF sqrtF expl maxDepth execO policyRoot policyRefine k st).nextId := by
  intro k
  induction k with
  | zero => intro st hwf hinv; exact ⟨hwf, hinv⟩
  | succ n ih =>
    intro st hwf hinv
    have hit := runIteration_inv logF sqrtF expl maxDepth execO policyRoot policyRefine hwf hinv
    rw [runLoop_succ]
    exact ih hit.1 hit.2

end RubricEngine

/-! # Claims -/

namespace Claims

open RewardSignals ValueNetwork MctsEngine

/-- C6: every reward scalar produced by either evaluator lies in [0, 1] —
each of the five algorithmic signals of `compute_rewards`, their weighted
composite, and the LLM-as-judge score (root 0.5; otherwise the first
numeric match of the reply clamped, 0.5 on parse failure) — for all
inputs, all `math.sqrt` behaviours, and all judge replies. -/
theorem C6_reward_scalars_unit_interval (sqrtF : ℚ → ℚ) (code : String)
    (train evalResults : List TestResult) (succ : Bool) (pmae : Option ℚ)
    (node_type reply : String) :
    (0 ≤ (compute_rewards sqrtF code train evalResults succ pmae).generalization ∧
      (compute_rewards sqrtF code train evalResults succ pmae).generalization ≤ 1) ∧
    (0 ≤ (compute_rewards sqrtF code train evalResults succ pmae).calibration ∧
      (compute_rewards sqrtF code train evalResults succ pmae).calibration ≤ 1) ∧
    (0 ≤ (compute_rewards sqrtF code train evalResults succ pmae).discrimination ∧
      (compute_rewards sqrtF code train evalResults succ pmae).discrimination ≤ 1) ∧
    (0 ≤ (compute_rewards sqrtF code train evalResults succ pmae).validity ∧
      (compute_rewards sqrtF code train evalResults succ pmae).validity ≤ 1) ∧
    (0 ≤ (compute_rewards sqrtF code train evalResults succ pmae).iteration ∧
      (compute_rewards sqrtF code train evalResults succ pmae).iteration ≤ 1) ∧
    (0 ≤ (compute_rewards sqrtF code train evalResults succ pmae).composite ∧
      (compute_rewards sqrtF code train evalResults succ pmae).composite ≤ 1) ∧
    (0 ≤ evaluate_node_score node_type reply ∧ evaluate_node_score node_type reply ≤ 1) := by
  have hg := generalization_reward_mem train evalResults
  have hc := calibration_reward_mem sqrtF train
  have hd := discrimination_reward_mem train
  have hv := validity_reward_mem code succ
  have hi := iteration_reward_mem (if train = [] then 1 else _mae train) pmae
  refine ⟨hg, hc, hd, hv, hi, ?_, evaluate_node_score_mem node_type reply⟩
  show 0 ≤ pyRound4 ((generalization_reward train evalResults * 1 +
      calibration_reward sqrtF train * (4 / 10) +
      discrimination_reward train * (3 / 10) +
      validity_reward code succ * (2 / 10) +
      iteration_reward (if train = [] then 1 else _mae train) pmae * (2 / 10)) /
      (1 + 4 / 10 + 3 / 10 + 2 / 10 + 2 / 10)) ∧ _ ≤ 1
  apply pyRound4_mem_unit
  · apply div_nonneg _ (by norm_num)
    have t1 : 0 ≤ calibration_reward sqrtF train * (4 / 10) := by nlinarith [hc.1]
    have t2 : 0 ≤ discrimination_reward train * (3 / 10) := by nlinarith [hd.1]
    have t3 : 0 ≤ validity_reward code succ * (2 / 10) := by nlinarith [hv.1]
    have t4 : 0 ≤ iteration_reward (if train = [] then 1 else _mae train) pmae * (2 / 10) := by
      nlinarith [hi.1]
    nlinarith [hg.1]
  · rw [div_le_one (by norm_num)]
    have t1 : calibration_reward sqrtF train * (4 / 10) ≤ 4 / 10 := by nlinarith [hc.2]
    have t2 : discrimination_reward train * (3 / 10) ≤ 3 / 10 := by nlinarith [hd.2]
    have t3 : validity_reward code succ * (2 / 10) ≤ 2 / 10 := by nlinarith [hv.2]
    have t4 : iteration_reward (if train = [] then 1 else _mae train) pmae * (2 / 10) ≤ 2 / 10 := by
      nlinarith [hi.2]
    nlinarith [hg.2]

/-- C5 counterexample: at parent MAE 0.5 and child MAE 0.6 (a regression)
the code returns `max(0, 0.3 + improvement) = 0.1`, while the claimed
formula `0.3 + 0.7·(parent − current)/parent` clamped gives `0.16` — the
`0.7` factor is not applied on the regression branch. -/
theorem C5_regression_counterexample :
    iteration_reward (6 / 10) (some (1 / 2)) = 1 / 10 ∧
    SpecFormulas.iteration_reward_spec (6 / 10) (1 / 2) = 4 / 25 ∧
    iteration_reward (6 / 10) (some (1 / 2)) ≠
      SpecFormulas.iteration_reward_spec (6 / 10) (1 / 2) := by
  refine ⟨?_, ?_, ?_⟩
  · norm_num [iteration_reward, pyRound4, round_eq]
  · norm_num [SpecFormulas.iteration_reward_spec, clamp01]
  · norm_num [iteration_reward, SpecFormulas.iteration_reward_spec, clamp01, pyRound4, round_eq]

/-- C5 amended: with no parent MAE the signal is `clamp01(1 − current)`
rounded to 4 decimals; with a positive parent MAE it equals the spec's
clamped formula (rounded) exactly when the rubric improves
(`current < parent`), but on a regression or stall it is
`max(0, 0.3 + (parent − current)/parent)` — without the 0.7 factor; a
zero parent MAE gives 1 if the current MAE is 0 and 0 otherwise. The
spec's worked example 0.30 → 0.15 ↦ 0.65 does hold. -/
theorem C5_iteration_reward_amended (c p : ℚ) (hp : 0 < p) :
    (iteration_reward c none = pyRound4 (clamp01 (1 - c))) ∧
    (c < p → iteration_reward c (some p) =
      pyRound4 (SpecFormulas.iteration_reward_spec c p)) ∧
    (p ≤ c → iteration_reward c (some p) =
      pyRound4 (max 0 (3 / 10 + (p - c) / p))) ∧
    (iteration_reward 0 (some 0) = 1) ∧
    (∀ c2 : ℚ, c2 ≠ 0 → iteration_reward c2 (some 0) = 0) ∧
    iteration_reward (15 / 100) (some (30 / 100)) = 65 / 100 := by
  have hp0 : p ≠ 0 := ne_of_gt hp
  refine ⟨rfl, ?_, ?_, by norm_num [iteration_reward], ?_,
    by norm_num [iteration_reward, pyRound4, round_eq]⟩
  · intro hcp
    have himp : 0 < (p - c) / p := div_pos (by linarith) hp
    simp only [iteration_reward, if_neg hp0, if_pos himp]
    unfold SpecFormulas.iteration_reward_spec clamp01
    have hx : (0 : ℚ) ≤ 3 / 10 + 7 / 10 * ((p - c) / p) := by nlinarith
    rw [max_eq_right]
    · ring_nf
    · exact le_min (by norm_num) hx
  · intro hpc
    have himp : ¬(0 < (p - c) / p) := by
      push_neg
      apply div_nonpos_of_nonpos_of_nonneg (by linarith) (le_of_lt hp)
    simp only [iteration_reward, if_neg hp0, if_neg himp]
  · intro c2 hc2
    simp [iteration_reward, hc2]

/-- C5 witness: the amended theorem applied at the spec's worked example
(parent MAE 0.30, child MAE 0.15 gives 0.65). -/
theorem C5_iteration_reward_witness :
    iteration_reward (15 / 100) (some (30 / 100)) = 65 / 100 :=
  (C5_iteration_reward_amended (15 / 100) (30 / 100) (by norm_num)).2.2.2.2.2

/-- C9 counterexample: a rubric node whose stored stdout has 400
characters serialises with all 400 of them — `RubricNode.to_dict`
truncates stdout at 500, not at the claimed 300 (and stderr at 500, not
200). -/
theorem C9_rubric_stdout_counterexample :
    ((RubricEngine.to_dict
      { id := 1, rubric_code := "", node_type := "hypothesis", depth := 1,
        visits := 0, reward_generalization := 0, reward_calibration := 0,
        reward_discrimination := 0, reward_validity := 0, reward_iteration := 0,
        reward_composite := 0, train_results := [], eval_results := [],
        train_mae := 1, eval_mae := 1,
        stdout := String.mk (List.replicate 400 'a'), stderr := "",
        execution_success := true, parent_id := some 0, children_ids := [],
        total_reward := 0 }).stdout).length = 400 ∧ ¬(400 ≤ 300) := by
  constructor
  · show ((pySlice (String.mk (List.replicate 400 'a')) 500)).length = 400
    show ((String.mk (List.replicate 400 'a')).toList.take 500).length = 400
    have h1 : (String.mk (List.replicate 400 'a')).toList = List.replicate 400 'a' := rfl
    rw [h1, List.take_of_length_le (by rw [List.length_replicate]; norm_num)]
    rw [List.length_replicate]
  · decide

/-- C9 amended: the transcript-variant node serialisation caps content at
300, code at 500, stdout at 300 and stderr at 200 characters as claimed;
the rubric-variant serialisation instead caps stdout and stderr at 500
characters each, leaves `rubric_code` untruncated, and caps the result
lists at 20 entries. -/
theorem C9_to_dict_truncation_amended (n : MctsEngine.ReasoningNode)
    (rn : RubricEngine.RubricNode) :
    (MctsEngine.to_dict n).content.length ≤ 300 ∧
    (MctsEngine.to_dict n).code.length ≤ 500 ∧
    (MctsEngine.to_dict n).repl_stdout.length ≤ 300 ∧
    (MctsEngine.to_dict n).repl_stderr.length ≤ 200 ∧
    (RubricEngine.to_dict rn).stdout.length ≤ 500 ∧
    (RubricEngine.to_dict rn).stderr.length ≤ 500 ∧
    (RubricEngine.to_dict rn).train_results.length ≤ 20 ∧
    (RubricEngine.to_dict rn).eval_results.length ≤ 20 := by
  refine ⟨?_, ?_, ?_, ?_, ?_, ?_, ?_, ?_⟩
  · exact pySlice_length_le _ _
  · show (if n.code ≠ "" then pySlice n.code 500 else "").length ≤ 500
    split_ifs with h
    · exact pySlice_length_le _ _
    · simp
  · show (if n.repl_stdout ≠ "" then pySlice n.repl_stdout 300 else "").length ≤ 300
    split_ifs with h
    · exact pySlice_length_le _ _
    · simp
  · show (if n.repl_stderr ≠ "" then pySlice n.repl_stderr 200 else "").length ≤ 200
    split_ifs with h
    · exact pySlice_length_le _ _
    · simp
  · exact pySlice_length_le _ _
  · exact pySlice_length_le _ _
  · exact List.length_take_le 20 rn.train_results
  · exact List.length_take_le 20 rn.eval_results

/-- C1 counterexample: in the transcript sandbox (which injects the full
`__builtins__`, repl_env.py line 84, and never filters imports),
executing `import os` succeeds and binds the `os` module into the
session's globals — the claim that `import os` fails in both sandbox
variants is false. -/
theorem C1_transcript_import_os_counterexample :
    ((ReplEnv.execute stdModules (fun _ => "") (ReplEnv.initState "ctx" "path")
        [ReplEnv.Stmt.importMod "os"]).2).success = true ∧
    ReplEnv.dictLookup ((ReplEnv.execute stdModules (fun _ => "")
        (ReplEnv.initState "ctx" "path")
        [ReplEnv.Stmt.importMod "os"]).1).globals "os"
      = some (ReplEnv.Value.moduleV "os") := by
  constructor <;> rfl

/-- C1 amended: only the rubric sandbox restricts imports — its
`_restricted_import` raises for any module outside the allowlist and
passes any allowlisted module through; the transcript sandbox applies no
restriction, so importing any module the interpreter has (in particular
`os`) succeeds and binds it into the globals. -/
theorem C1_import_allowlist_amended :
    (∀ m : String, m ∉ RubricRepl.ALLOWED_MODULES →
      ∃ msg, RubricRepl._restricted_import m = .error msg) ∧
    (∀ m : String, m ∈ RubricRepl.ALLOWED_MODULES →
      RubricRepl._restricted_import m = .ok m) ∧
    (∀ (modules : String → Bool) (provider : String → String)
        (st : ReplEnv.REPLState) (m : String), modules m = true →
      ((ReplEnv.execute modules provider st [ReplEnv.Stmt.importMod m]).2).success = true ∧
      ReplEnv.dictLookup ((ReplEnv.execute modules provider st
          [ReplEnv.Stmt.importMod m]).1).globals m
        = some (ReplEnv.Value.moduleV m)) := by
  refine ⟨?_, ?_, ?_⟩
  · intro m hm
    unfold RubricRepl._restricted_import
    rw [if_neg hm]
    exact ⟨_, rfl⟩
  · intro m hm
    unfold RubricRepl._restricted_import
    rw [if_pos hm]
  · intro modules provider st m hm
    simp only [ReplEnv.execute, List.filter, ReplEnv.isImport]
    rw [ReplEnv.runImports_single modules _ m hm]
    exact ⟨rfl, ReplEnv.dictLookup_dictInsert _ _ _⟩

/-- C1 witness: `os` is outside the allowlist and rejected by the rubric
sandbox, `re` is allowlisted and passes, and the transcript sandbox
imports `os` successfully. -/
theorem C1_import_allowlist_witness :
    (∃ msg, RubricRepl._restricted_import "os" = .error msg) ∧
    RubricRepl._restricted_import "re" = .ok "re" ∧
    ((ReplEnv.execute stdModules (fun _ => "") (ReplEnv.initState "ctx" "path")
        [ReplEnv.Stmt.importMod "os"]).2).success = true :=
  ⟨C1_import_allowlist_amended.1 "os" (by decide),
   C1_import_allowlist_amended.2.1 "re" (by decide),
   (C1_import_allowlist_amended.2.2 stdModules (fun _ => "")
     (ReplEnv.initState "ctx" "path") "os" (by decide)).1⟩

/-- C7: the sandbox carries variable state across `execute` calls — in a
fresh session, running `x = 1` with `print(x)` prints `1`, and a second
call running `print(x + 1)` in the same session prints `2`, because the
binding of `x` was persisted into the session locals. -/
theorem C7_state_persists_across_executes :
    (((ReplEnv.execute (fun _ => true) (fun _ => "") (ReplEnv.initState "ctx" "path")
        [ReplEnv.Stmt.assign "x" (ReplEnv.Expr.lit 1),
         ReplEnv.Stmt.print (ReplEnv.Expr.var "x")]).2).stdout = "1\n") ∧
    (((ReplEnv.execute (fun _ => true) (fun _ => "")
        ((ReplEnv.execute (fun _ => true) (fun _ => "") (ReplEnv.initState "ctx" "path")
          [ReplEnv.Stmt.assign "x" (ReplEnv.Expr.lit 1),
           ReplEnv.Stmt.print (ReplEnv.Expr.var "x")]).1)
        [ReplEnv.Stmt.print (ReplEnv.Expr.add (ReplEnv.Expr.var "x")
          (ReplEnv.Expr.lit 1))]).2).stdout = "2\n") := by
  constructor <;> rfl

/-- C10: after every transcript-variant `execute` call, a top-level
binding whose name starts with an underscore or whose name is already a
global (the injected `llm_query`, `FINAL_VAR`, `__builtins__` are bound
in the initial globals) is not persisted into the session locals; and the
returned variables snapshot never contains the key `context` or any
underscore-prefixed key, truncates every repr to at most 200 characters,
and replaces an unrepresentable value by the `<unrepresentable>`
marker. -/
theorem C10_execute_frame (modules : String → Bool) (provider : String → String)
    (st : ReplEnv.REPLState) (code : List ReplEnv.Stmt) :
    (∀ k : String, pyStartsWith k "_" = true ∨
        (ReplEnv.dictLookup st.globals k).isSome →
      ReplEnv.dictLookup ((ReplEnv.execute modules provider st code).1).locals k
        = ReplEnv.dictLookup st.locals k) ∧
    (∀ ctx path k : String, k ∈ ["llm_query", "FINAL_VAR", "__builtins__"] →
      (ReplEnv.dictLookup (ReplEnv.initState ctx path).globals k).isSome) ∧
    (∀ k r : String,
      (k, r) ∈ ((ReplEnv.execute modules provider st code).2).locals_snapshot →
      k ≠ "context" ∧ pyStartsWith k "_" = false ∧ r.length ≤ 200) ∧
    (∀ (k : String) (v : ReplEnv.Value),
      (k, v) ∈ ((ReplEnv.execute modules provider st code).1).locals →
      pyStartsWith k "_" = false → k ≠ "context" → ReplEnv.pyRepr v = none →
      (k, "<unrepresentable>") ∈
        ((ReplEnv.execute modules provider st code).2).locals_snapshot) := by
  refine ⟨fun k hk => ReplEnv.execute_locals_preserved modules provider st code k hk,
    ?_, ?_, ?_⟩
  · intro ctx path k hkmem
    simp only [List.mem_cons, List.mem_singleton] at hkmem
    rcases hkmem with rfl | rfl | (rfl | h)
    · rfl
    · rfl
    · rfl
    · exact absurd h (List.not_mem_nil k)
  · intro k r h
    rw [ReplEnv.execute_snapshot_eq] at h
    exact ReplEnv.localsSnapshot_keys h
  · intro k v hmem h1 h2 hbad
    rw [ReplEnv.execute_snapshot_eq]
    have hmm := ReplEnv.localsSnapshot_mem_of hmem h1 h2
    rwa [show ReplEnv.truncRepr v = "<unrepresentable>" by
      unfold ReplEnv.truncRepr; rw [hbad]] at hmm

/-- C10 witness: in a session whose globals hold the injected `llm_query`,
an `execute` call that rebinds `llm_query` and binds `_tmp` leaves the
session locals unchanged at the key `llm_query`. -/
theorem C10_execute_frame_witness :
    ReplEnv.dictLookup ((ReplEnv.execute (fun _ => true) (fun _ => "")
      { globals := [("llm_query", ReplEnv.Value.builtinV "llm_query")],
        locals := [("_secret", ReplEnv.Value.intV 7)], llm_call_count := 0 }
      [ReplEnv.Stmt.assign "llm_query" (ReplEnv.Expr.lit 5),
       ReplEnv.Stmt.assign "_tmp" (ReplEnv.Expr.lit 6)]).1).locals "llm_query"
      = ReplEnv.dictLookup [("_secret", ReplEnv.Value.intV 7)] "llm_query" :=
  (C10_execute_frame (fun _ => true) (fun _ => "")
    { globals := [("llm_query", ReplEnv.Value.builtinV "llm_query")],
      locals := [("_secret", ReplEnv.Value.intV 7)], llm_call_count := 0 }
    [ReplEnv.Stmt.assign "llm_query" (ReplEnv.Expr.lit 5),
     ReplEnv.Stmt.assign "_tmp" (ReplEnv.Expr.lit 6)]).1 "llm_query" (Or.inr (by rfl))

/-- C8: within a single `execute` call the `llm_query` budget counter
starts from zero (it is reset at the start of every `execute`, so the
statement holds for any prior session state), and of the calls the code
makes, the first three (indices 0-2) reach the provider with their
(truncated) prompt while every later call returns the sentinel string
telling the caller to fall back to local string operations. -/
theorem C8_llm_query_budget (modules : String → Bool) (provider : String → String)
    (st : ReplEnv.REPLState) (code : List ReplEnv.Stmt) :
    ∀ (j : Nat) (h : j < ((ReplEnv.execute modules provider st code).2).llmTrace.length),
      (j < 3 →
        (((ReplEnv.execute modules provider st code).2).llmTrace.get ⟨j, h⟩).answered = true ∧
        (((ReplEnv.execute modules provider st code).2).llmTrace.get ⟨j, h⟩).reply
          = provider (ReplEnv.truncPrompt
              ((((ReplEnv.execute modules provider st code).2).llmTrace.get ⟨j, h⟩).prompt))) ∧
      (3 ≤ j →
        (((ReplEnv.execute modules provider st code).2).llmTrace.get ⟨j, h⟩).answered = false ∧
        (((ReplEnv.execute modules provider st code).2).llmTrace.get ⟨j, h⟩).reply
          = ReplEnv.llmSentinel) :=
  fun j h => ReplEnv.execute_trace_ok modules provider st code j h

/-- C8 witness: an `execute` call making four `llm_query` calls gets the
sentinel on the fourth (index 3). -/
theorem C8_llm_query_budget_witness :
    ((((ReplEnv.execute (fun _ => true) (fun _ => "reply") (ReplEnv.initState "c" "p")
      [ReplEnv.Stmt.assignLlm "a" (ReplEnv.Expr.strLit "p1"),
       ReplEnv.Stmt.assignLlm "b" (ReplEnv.Expr.strLit "p2"),
       ReplEnv.Stmt.assignLlm "e" (ReplEnv.Expr.strLit "p3"),
       ReplEnv.Stmt.assignLlm "d" (ReplEnv.Expr.strLit "p4")]).2).llmTrace.get
        ⟨3, by decide⟩).answered = false) ∧
    ((((ReplEnv.execute (fun _ => true) (fun _ => "reply") (ReplEnv.initState "c" "p")
      [ReplEnv.Stmt.assignLlm "a" (ReplEnv.Expr.strLit "p1"),
       ReplEnv.Stmt.assignLlm "b" (ReplEnv.Expr.strLit "p2"),
       ReplEnv.Stmt.assignLlm "e" (ReplEnv.Expr.strLit "p3"),
       ReplEnv.Stmt.assignLlm "d" (ReplEnv.Expr.strLit "p4")]).2).llmTrace.get
        ⟨3, by decide⟩).reply = ReplEnv.llmSentinel) :=
  (C8_llm_query_budget (fun _ => true) (fun _ => "reply") (ReplEnv.initState "c" "p")
    [ReplEnv.Stmt.assignLlm "a" (ReplEnv.Expr.strLit "p1"),
     ReplEnv.Stmt.assignLlm "b" (ReplEnv.Expr.strLit "p2"),
     ReplEnv.Stmt.assignLlm "e" (ReplEnv.Expr.strLit "p3"),
     ReplEnv.Stmt.assignLlm "d" (ReplEnv.Expr.strLit "p4")]
    3 (by decide)).2 (by norm_num)

/-- C2: UCB1 selection scores an unvisited child as `+inf` (`⊤`), every
visited sibling strictly below `⊤`, so an unvisited child outranks every
visited sibling; when a parent has an unvisited child among its children
(all of which exist in the tree), the `max(..., key=ucb)` selection of
`_select` picks an unvisited child; and the parent-visit count fed into
the formula is floored at 1, so `math.log` is never taken at zero. -/
theorem C2_ucb_unvisited_first (logF sqrtF : ℚ → ℚ) (cc : ℚ) (nodes : Nat → Option ReasoningNode)
    (parentNode child sib : ReasoningNode) (pv : Nat) :
    (child.visits = 0 → ucb_score logF sqrtF child pv cc = ⊤) ∧
    (0 < sib.visits → ucb_score logF sqrtF sib pv cc < ⊤) ∧
    (child.visits = 0 → 0 < sib.visits →
      ucb_score logF sqrtF sib pv cc < ucb_score logF sqrtF child pv cc) ∧
    ((∀ cid ∈ parentNode.children, ∃ nd, nodes cid = some nd) →
      (∃ cid ∈ parentNode.children, ∃ nd, nodes cid = some nd ∧ nd.visits = 0) →
      ∃ sel, pymax (childKey logF sqrtF cc nodes (parent_visits_floor parentNode))
          parentNode.children = some sel ∧
        ∃ seln, nodes sel = some seln ∧ seln.visits = 0) ∧
    1 ≤ parent_visits_floor parentNode := by
  have ha : ∀ (n : ReasoningNode) (pv2 : Nat), n.visits = 0 →
      ucb_score logF sqrtF n pv2 cc = ⊤ := by
    intro n pv2 h
    unfold ucb_score
    rw [if_pos h]
  have hb : ∀ (n : ReasoningNode) (pv2 : Nat), 0 < n.visits →
      ucb_score logF sqrtF n pv2 cc < ⊤ := by
    intro n pv2 h
    unfold ucb_score
    rw [if_neg (Nat.pos_iff_ne_zero.mp h)]
    exact WithTop.coe_lt_top _
  refine ⟨ha child pv, hb sib pv, ?_, ?_, le_max_right _ _⟩
  · intro h0 hs
    rw [ha child pv h0]
    exact hb sib pv hs
  · intro hall hun
    obtain ⟨cid, hcid, nd, hnd, hv⟩ := hun
    have hkey : childKey logF sqrtF cc nodes (parent_visits_floor parentNode) cid = ⊤ := by
      unfold childKey
      simp only [hnd]
      exact ha nd _ hv
    obtain ⟨m, hm, hmtop, hmmem⟩ := pymax_top _ _ cid hcid hkey
    obtain ⟨mn, hmn⟩ := hall m hmmem
    refine ⟨m, hm, mn, hmn, ?_⟩
    by_contra hnz
    have hpos : 0 < mn.visits := Nat.pos_of_ne_zero hnz
    have hlt := hb mn (parent_visits_floor parentNode) hpos
    have hmtop2 : ucb_score logF sqrtF mn (parent_visits_floor parentNode) cc = ⊤ := by
      have heq : childKey logF sqrtF cc nodes (parent_visits_floor parentNode) m
          = ucb_score logF sqrtF mn (parent_visits_floor parentNode) cc := by
        unfold childKey
        simp only [hmn]
      rw [← heq]
      exact hmtop
    rw [hmtop2] at hlt
    exact absurd hlt (lt_irrefl _)

/-- C2 witness: a parent with a visited child (id 1) and an unvisited
child (id 2); the unvisited child outranks the visited one and selection
picks an unvisited child. -/
theorem C2_ucb_unvisited_first_witness :
    ucb_score id id
        { id := 1, content := "", node_type := "code", parent_id := some 0,
          children := [], visits := 1, total_value := 1/2, depth := 1,
          code := "", repl_stdout := "", repl_stderr := "", repl_vars := [] } 1 1.414
      < ucb_score id id
        { id := 2, content := "", node_type := "code", parent_id := some 0,
          children := [], visits := 0, total_value := 0, depth := 1,
          code := "", repl_stdout := "", repl_stderr := "", repl_vars := [] } 1 1.414 ∧
    ∃ sel, pymax (childKey id id 1.414
        (fun i => if i = 1 then some
          { id := 1, content := "", node_type := "code", parent_id := some 0,
            children := [], visits := 1, total_value := 1/2, depth := 1,
            code := "", repl_stdout := "", repl_stderr := "", repl_vars := [] }
          else if i = 2 then some
          { id := 2, content := "", node_type := "code", parent_id := some 0,
            children := [], visits := 0, total_value := 0, depth := 1,
            code := "", repl_stdout := "", repl_stderr := "", repl_vars := [] }
          else none)
        (parent_visits_floor
          { id := 0, content := "q", node_type := "question", parent_id := none,
            children := [1, 2], visits := 2, total_value := 1/2, depth := 0,
            code := "", repl_stdout := "", repl_stderr := "", repl_vars := [] }))
        [1, 2] = some sel ∧
      ∃ seln, (fun i => if i = 1 then some
          { id := 1, content := "", node_type := "code", parent_id := some 0,
            children := [], visits := 1, total_value := 1/2, depth := 1,
            code := "", repl_stdout := "", repl_stderr := "", repl_vars := [] }
          else if i = 2 then some
          { id := 2, content := "", node_type := "code", parent_id := some 0,
            children := [], visits := 0, total_value := 0, depth := 1,
            code := "", repl_stdout := "", repl_stderr := "", repl_vars := [] }
          else none : Nat → Option ReasoningNode) sel = some seln ∧ seln.visits = 0 := by
  have h := C2_ucb_unvisited_first id id 1.414
    (fun i => if i = 1 then some
      { id := 1, content := "", node_type := "code", parent_id := some 0,
        children := [], visits := 1, total_value := 1/2, depth := 1,
        code := "", repl_stdout := "", repl_stderr := "", repl_vars := [] }
      else if i = 2 then some
      { id := 2, content := "", node_type := "code", parent_id := some 0,
        children := [], visits := 0, total_value := 0, depth := 1,
        code := "", repl_stdout := "", repl_stderr := "", repl_vars := [] }
      else none)
    { id := 0, content := "q", node_type := "question", parent_id := none,
      children := [1, 2], visits := 2, total_value := 1/2, depth := 0,
      code := "", repl_stdout := "", repl_stderr := "", repl_vars := [] }
    { id := 2, content := "", node_type := "code", parent_id := some 0,
      children := [], visits := 0, total_value := 0, depth := 1,
      code := "", repl_stdout := "", repl_stderr := "", repl_vars := [] }
    { id := 1, content := "", node_type := "code", parent_id := some 0,
      children := [], visits := 1, total_value := 1/2, depth := 1,
      code := "", repl_stdout := "", repl_stderr := "", repl_vars := [] }
    1
  refine ⟨h.2.2.1 rfl (by norm_num), ?_⟩
  refine h.2.2.2.1 ?_ ?_
  · intro cid hcid
    simp only [List.mem_cons, List.mem_singleton] at hcid
    rcases hcid with rfl | (rfl | hfalse)
    · exact ⟨_, rfl⟩
    · exact ⟨_, rfl⟩
    · exact absurd hfalse (List.not_mem_nil _)
  · refine ⟨2, by simp, ?_⟩
    exact ⟨_, rfl, rfl⟩

/-- C3: backpropagating a scalar from a node updates exactly the nodes on
the parent-link path to the root (root included) - each such node gains
one visit and the scalar in its total - and leaves every other node
untouched, in both engine variants. -/
theorem C3_backprop_exact_path
    (nodesT : Nat → Option MctsEngine.ReasoningNode) (idT : Nat) (value : ℚ)
    (fT fuelT : Nat) (pT : List Nat)
    (hT : parentPath (fun n => n.parent_id) nodesT idT fT = some pT)
    (hndT : pT.Nodup) (hfT : pT.length ≤ fuelT)
    (nodesR : Nat → Option RubricEngine.RubricNode) (idR : Nat) (reward : ℚ)
    (fR fuelR : Nat) (pR : List Nat)
    (hR : parentPath (fun n => n.parent_id) nodesR idR fR = some pR)
    (hndR : pR.Nodup) (hfR : pR.length ≤ fuelR) :
    ((∀ i ∈ pT, ∃ n, nodesT i = some n ∧
        MctsEngine._backpropagate nodesT idT value fuelT i =
          some { n with visits := n.visits + 1, total_value := n.total_value + value }) ∧
     (∀ i, i ∉ pT → MctsEngine._backpropagate nodesT idT value fuelT i = nodesT i)) ∧
    ((∀ i ∈ pR, ∃ n, nodesR i = some n ∧
        RubricEngine._backpropagate nodesR idR reward fuelR i =
          some { n with visits := n.visits + 1, total_reward := n.total_reward + reward }) ∧
     (∀ i, i ∉ pR → RubricEngine._backpropagate nodesR idR reward fuelR i = nodesR i)) := by
  constructor
  · exact @backpropAux_path MctsEngine.ReasoningNode (fun n => n.parent_id)
      (MctsEngine.bumpValue value) nodesT idT fT fuelT pT hT hndT hfT
  · exact @backpropAux_path RubricEngine.RubricNode (fun n => n.parent_id)
      (RubricEngine.bumpReward reward) nodesR idR fR fuelR pR hR hndR hfR

theorem C3_backprop_exact_path_witness :
    ((∀ i ∈ [1, 0], ∃ n, c3nodesT i = some n ∧
        MctsEngine._backpropagate c3nodesT 1 (5 : ℚ) 2 i =
          some { n with visits := n.visits + 1, total_value := n.total_value + 5 }) ∧
     (∀ i, i ∉ ([1, 0] : List Nat) →
        MctsEngine._backpropagate c3nodesT 1 (5 : ℚ) 2 i = c3nodesT i)) ∧
    ((∀ i ∈ [1, 0], ∃ n, c3nodesR i = some n ∧
        RubricEngine._backpropagate c3nodesR 1 (7 : ℚ) 2 i =
          some { n with visits := n.visits + 1, total_reward := n.total_reward + 7 }) ∧
     (∀ i, i ∉ ([1, 0] : List Nat) →
        RubricEngine._backpropagate c3nodesR 1 (7 : ℚ) 2 i = c3nodesR i)) :=
  C3_backprop_exact_path c3nodesT 1 5 2 2 [1, 0] (by rfl) (by decide) (by decide)
    c3nodesR 1 7 2 2 [1, 0] (by rfl) (by decide) (by decide)

/-- C4 (amended): each transcript-engine iteration backpropagates exactly
one leaf, so after k iterations the root has exactly k visits; the rubric
engine instead backpropagates once per child created in the iteration, so
its root visit count equals the number of created children
(nextId - 1), not the iteration count. -/
theorem C4_iteration_visits_amended :
    (∀ (σ : Type) (logF sqrtF : ℚ → ℚ) (c : ℚ) (maxDepth : Nat)
        (policy : MctsEngine.SearchState σ → Nat → List MctsEngine.Seed)
        (replExec : σ → String → σ × MctsEngine.ExecOutcome)
        (getVar : σ → String → Option String)
        (valueFn : MctsEngine.SearchState σ → Nat → ℚ)
        (q : String) (repl : σ) (k : Nat),
        MctsEngine.rootVisits (MctsEngine.searchLoop logF sqrtF c maxDepth policy replExec
          getVar valueFn k (MctsEngine.searchInit q repl)) = k) ∧
    (∀ (logF sqrtF : ℚ → ℚ) (expl : ℚ) (maxDepth : Nat)
        (execO : String → RubricEngine.ExecRubricResult)
        (policyRoot : RubricEngine.RubricState → List String)
        (policyRefine : RubricEngine.RubricState → Nat → List String) (k : Nat),
        RubricEngine.rootVisitsR (RubricEngine.runLoop logF sqrtF expl maxDepth execO
          policyRoot policyRefine k RubricEngine.runInit) + 1 =
        (RubricEngine.runLoop logF sqrtF expl maxDepth execO policyRoot policyRefine k
          RubricEngine.runInit).nextId) := by
  constructor
  · intro σ logF sqrtF c maxDepth policy replExec getVar valueFn q repl k
    have hinit := MctsEngine.searchInit_wf q repl
    have h := MctsEngine.searchLoop_wf logF sqrtF c maxDepth policy replExec getVar valueFn
      k hinit.1
    rw [h.2, hinit.2]
    omega
  · intro logF sqrtF expl maxDepth execO policyRoot policyRefine k
    have hinv : RubricEngine.rootVisitsR RubricEngine.runInit + 1 =
        RubricEngine.runInit.nextId := by
      rw [RubricEngine.runInit_wf.2]
      rfl
    have h := RubricEngine.runLoop_inv logF sqrtF expl maxDepth execO policyRoot policyRefine
      k RubricEngine.runInit_wf.1 hinv
    exact h.2

/-- C4 counterexample: one rubric iteration whose root expansion returns
two candidates backpropagates twice, leaving the root with 2 visits after
k = 1 iterations, not 1. -/
theorem C4_rubric_single_iteration_counterexample :
    RubricEngine.rootVisitsR (RubricEngine.runLoop id id 1 4
      (fun _ => { success := false, train_results := [], eval_results := [],
                  stdout := "", stderr := "" })
      (fun _ => ["a", "b"]) (fun _ _ => []) 1 RubricEngine.runInit) = 2 := by
  rfl

end Claims

end RlmMcts
